import Mathlib

/-!
Verification development for an RFP-analysis pipeline: a PDF upload validator,
an LLM analysis client with a JSON response-recovery routine and a structural
validator, a PDF report renderer, and a two-tab spreadsheet renderer.

Python text values are modelled as `List Char`; the JSON library
(`json.loads` / `json.dumps`) is modelled by an executable recursive-descent
parser and serializer over a JSON value type (numbers are modelled as
non-negative integers, which covers every number appearing in the claims;
`json.dumps` is modelled with its default separators `", "` and `": "` and
with the standard backslash escapes for quote, backslash, newline, carriage
return and tab).
-/

namespace Rfp

/-- The backtick character (written via its code point, 96). -/
def btick : Char := Char.ofNat 96

/-- The left brace character (code point 123). -/
def lbrace : Char := Char.ofNat 123

/-- The right brace character (code point 125). -/
def rbrace : Char := Char.ofNat 125

/-- JSON insignificant whitespace (RFC 8259): space, tab, newline, return. -/
def isJws (c : Char) : Bool :=
  c == ' ' || c == '\t' || c == '\n' || c == '\r'

/-- Python `str.strip` whitespace: the six ASCII whitespace characters. -/
def isPyWs (c : Char) : Bool :=
  c == ' ' || c == '\t' || c == '\n' || c == '\r' || c == '\x0b' || c == '\x0c'

/-- Drop leading JSON whitespace. -/
def skipJws (cs : List Char) : List Char := cs.dropWhile isJws

/-- First index at which `pat` occurs in `hay` (Python `str.find` without start). -/
def findAux (hay pat : List Char) : Option Nat :=
  match hay with
  | [] => if pat = [] then some 0 else none
  | _ :: t =>
    if List.isPrefixOf pat hay then some 0
    else (findAux t pat).map (· + 1)

/-- Last index at which `pat` occurs in `hay` (Python `str.rfind`). -/
def rfindAux (hay pat : List Char) : Option Nat :=
  match hay with
  | [] => if pat = [] then some 0 else none
  | _ :: t =>
    match rfindAux t pat with
    | some i => some (i + 1)
    | none => if List.isPrefixOf pat hay then some 0 else none

/-- Python `hay.find(pat, start)`: index of first occurrence at or after
`start`, or `-1`. -/
def pyFind (hay pat : List Char) (start : Nat) : Int :=
  match findAux (hay.drop start) pat with
  | some i => ((start + i : Nat) : Int)
  | none => -1

/-- Python `hay.rfind(pat)`: index of last occurrence, or `-1`. -/
def pyRFind (hay pat : List Char) : Int :=
  match rfindAux hay pat with
  | some i => (i : Int)
  | none => -1

/-- Python slice `l[a:b]` with possibly negative bounds. -/
def pySlice (l : List Char) (a b : Int) : List Char :=
  let n : Int := l.length
  let norm : Int → Nat := fun i =>
    if i < 0 then (if i + n < 0 then 0 else (i + n).toNat)
    else min i.toNat l.length
  ((l.drop (norm a)).take (norm b - norm a))

/-- Python `str.strip()`: remove leading and trailing whitespace. -/
def pyStrip (l : List Char) : List Char :=
  ((l.dropWhile isPyWs).reverse.dropWhile isPyWs).reverse

/-! ## The JSON value type (mutual, so that induction is straightforward) -/

mutual
inductive Json where
  | null : Json
  | bool (b : Bool) : Json
  | num (n : Nat) : Json
  | str (s : String) : Json
  | arr (xs : JsonList) : Json
  | obj (kvs : JsonKVs) : Json

inductive JsonList where
  | nil : JsonList
  | cons (hd : Json) (tl : JsonList) : JsonList

inductive JsonKVs where
  | nil : JsonKVs
  | cons (k : String) (v : Json) (tl : JsonKVs) : JsonKVs
end

/-! ## Serializer, modelling `json.dumps` with default separators -/

/-- Escape one character as `json.dumps` does (quote, backslash, and the
common control characters; other characters are emitted raw). -/
def escChar (c : Char) : List Char :=
  if c = '"' then ['\\', '"']
  else if c = '\\' then ['\\', '\\']
  else if c = '\n' then ['\\', 'n']
  else if c = '\r' then ['\\', 'r']
  else if c = '\t' then ['\\', 't']
  else [c]

/-- Escape a character list for a JSON string literal body. -/
def escL : List Char → List Char
  | [] => []
  | c :: rest => escChar c ++ escL rest

/-- Decimal digit character for `d < 10`. -/
def digitC (d : Nat) : Char := Char.ofNat (48 + d)

/-- Numeric value of a decimal digit character. -/
def dval (c : Char) : Nat := c.toNat - 48

/-- Little-endian base-10 digits of `n`, with explicit fuel so that the
kernel can evaluate it (agrees with `Nat.digits 10` once the fuel covers
`n`; see `digitsRev_eq_digits`). -/
def digitsRev : Nat → Nat → List Nat
  | 0, _ => []
  | f + 1, n => if n = 0 then [] else n % 10 :: digitsRev f (n / 10)

/-- Decimal representation of a natural number. -/
def dumpNat (n : Nat) : List Char :=
  if n = 0 then ['0'] else ((digitsRev n n).map digitC).reverse

mutual
/-- Serialize a JSON value, as `json.dumps` with default separators. -/
def dumpV : Json → List Char
  | Json.null => ['n', 'u', 'l', 'l']
  | Json.bool true => ['t', 'r', 'u', 'e']
  | Json.bool false => ['f', 'a', 'l', 's', 'e']
  | Json.num n => dumpNat n
  | Json.str s => '"' :: (escL s.data ++ ['"'])
  | Json.arr xs => '[' :: (dumpElems xs ++ [']'])
  | Json.obj kvs => lbrace :: (dumpMembers kvs ++ [rbrace])
  termination_by structural j => j

def dumpElems : JsonList → List Char
  | JsonList.nil => []
  | JsonList.cons h t => dumpV h ++ dumpERest t
  termination_by structural xs => xs

def dumpERest : JsonList → List Char
  | JsonList.nil => []
  | JsonList.cons h t => ',' :: ' ' :: (dumpV h ++ dumpERest t)
  termination_by structural xs => xs

def dumpMembers : JsonKVs → List Char
  | JsonKVs.nil => []
  | JsonKVs.cons k v t =>
      '"' :: (escL k.data ++ '"' :: ':' :: ' ' :: (dumpV v ++ dumpMRest t))
  termination_by structural kvs => kvs

def dumpMRest : JsonKVs → List Char
  | JsonKVs.nil => []
  | JsonKVs.cons k v t =>
      ',' :: ' ' :: '"' :: (escL k.data ++ '"' :: ':' :: ' ' :: (dumpV v ++ dumpMRest t))
  termination_by structural kvs => kvs
end

/-! ## Parser, modelling `json.loads` -/

/-- Hexadecimal value of a character, if it is a hex digit. -/
def hexVal (c : Char) : Option Nat :=
  if '0' ≤ c ∧ c ≤ '9' then some (c.toNat - 48)
  else if 'a' ≤ c ∧ c ≤ 'f' then some (c.toNat - 87)
  else if 'A' ≤ c ∧ c ≤ 'F' then some (c.toNat - 55)
  else none

/-- Translate a single-character escape code. -/
def escCode (c : Char) : Option Char :=
  if c = '"' then some '"'
  else if c = '\\' then some '\\'
  else if c = '/' then some '/'
  else if c = 'n' then some '\n'
  else if c = 't' then some '\t'
  else if c = 'r' then some '\r'
  else if c = 'b' then some '\x08'
  else if c = 'f' then some '\x0c'
  else none

/-- Parse the body of a JSON string literal (after the opening quote),
returning the decoded characters and the remainder after the closing quote. -/
def pStrBody : List Char → Option (List Char × List Char)
  | [] => none
  | c :: rest =>
    if c = '"' then some ([], rest)
    else if c = '\\' then
      match rest with
      | [] => none
      | e :: r2 =>
        if e = 'u' then
          match r2 with
          | a :: b :: cc :: d :: r3 =>
            match hexVal a, hexVal b, hexVal cc, hexVal d with
            | some x, some y, some z, some w =>
              (pStrBody r3).map
                (fun p => (Char.ofNat (((x * 16 + y) * 16 + z) * 16 + w) :: p.1, p.2))
            | _, _, _, _ => none
          | _ => none
        else
          match escCode e with
          | some ch => (pStrBody r2).map (fun p => (ch :: p.1, p.2))
          | none => none
    else (pStrBody rest).map (fun p => (c :: p.1, p.2))

/-- Is `c` a decimal digit? -/
def isDig (c : Char) : Bool := 48 ≤ c.toNat && c.toNat ≤ 57

/-- Parse a run of digits at the head of the input into a number. -/
def pNum (cs : List Char) : Option (Nat × List Char) :=
  let ds := cs.takeWhile isDig
  if ds = [] then none
  else some (ds.foldl (fun a c => 10 * a + dval c) 0, cs.dropWhile isDig)

/-- Parser mode: a value, array elements, array tail, object members,
object member tail. -/
inductive PK where
  | v : PK
  | es : PK
  | et : PK
  | ms : PK
  | mt : PK

/-- Parser result: a value, an element list, or a member list. -/
inductive PR where
  | j (x : Json) : PR
  | l (xs : JsonList) : PR
  | m (kvs : JsonKVs) : PR

/-- Fueled recursive-descent JSON parser (one function so that its kernel
reduction is plain structural recursion on the fuel). -/
def pAux : Nat → PK → List Char → Option (PR × List Char)
  | 0, _, _ => none
  | f + 1, PK.v, cs =>
    match skipJws cs with
    | [] => none
    | c :: rest =>
      if c = lbrace then
        match pAux f PK.ms rest with
        | some (PR.m kvs, r) => some (PR.j (Json.obj kvs), r)
        | _ => none
      else if c = '[' then
        match pAux f PK.es rest with
        | some (PR.l xs, r) => some (PR.j (Json.arr xs), r)
        | _ => none
      else if c = '"' then
        (pStrBody rest).map (fun p => (PR.j (Json.str (String.mk p.1)), p.2))
      else if c = 't' then
        match rest with
        | 'r' :: 'u' :: 'e' :: r => some (PR.j (Json.bool true), r)
        | _ => none
      else if c = 'f' then
        match rest with
        | 'a' :: 'l' :: 's' :: 'e' :: r => some (PR.j (Json.bool false), r)
        | _ => none
      else if c = 'n' then
        match rest with
        | 'u' :: 'l' :: 'l' :: r => some (PR.j Json.null, r)
        | _ => none
      else if isDig c then
        (pNum (c :: rest)).map (fun p => (PR.j (Json.num p.1), p.2))
      else none
  | f + 1, PK.es, cs =>
    match skipJws cs with
    | [] => none
    | c :: rest =>
      if c = ']' then some (PR.l JsonList.nil, rest)
      else
        match pAux f PK.v (c :: rest) with
        | some (PR.j v, r) =>
          match pAux f PK.et r with
          | some (PR.l xs, r') => some (PR.l (JsonList.cons v xs), r')
          | _ => none
        | _ => none
  | f + 1, PK.et, cs =>
    match skipJws cs with
    | [] => none
    | c :: rest =>
      if c = ']' then some (PR.l JsonList.nil, rest)
      else if c = ',' then
        match pAux f PK.v rest with
        | some (PR.j v, r) =>
          match pAux f PK.et r with
          | some (PR.l xs, r') => some (PR.l (JsonList.cons v xs), r')
          | _ => none
        | _ => none
      else none
  | f + 1, PK.ms, cs =>
    match skipJws cs with
    | [] => none
    | c :: rest =>
      if c = rbrace then some (PR.m JsonKVs.nil, rest)
      else if c = '"' then
        match pStrBody rest with
        | some (k, r1) =>
          match skipJws r1 with
          | ':' :: r2 =>
            match pAux f PK.v r2 with
            | some (PR.j v, r3) =>
              match pAux f PK.mt r3 with
              | some (PR.m kvs, r4) => some (PR.m (JsonKVs.cons (String.mk k) v kvs), r4)
              | _ => none
            | _ => none
          | _ => none
        | none => none
      else none
  | f + 1, PK.mt, cs =>
    match skipJws cs with
    | [] => none
    | c :: rest =>
      if c = rbrace then some (PR.m JsonKVs.nil, rest)
      else if c = ',' then
        match skipJws rest with
        | '"' :: r0 =>
          match pStrBody r0 with
          | some (k, r1) =>
            match skipJws r1 with
            | ':' :: r2 =>
              match pAux f PK.v r2 with
              | some (PR.j v, r3) =>
                match pAux f PK.mt r3 with
                | some (PR.m kvs, r4) => some (PR.m (JsonKVs.cons (String.mk k) v kvs), r4)
                | _ => none
              | _ => none
            | _ => none
          | none => none
        | _ => none
      else none

/-- Model of `json.loads`: parse one JSON value, allowing surrounding
whitespace, rejecting trailing garbage; `none` models `JSONDecodeError`. -/
def json_loads (t : List Char) : Option Json :=
  match pAux (2 * t.length + 4) PK.v t with
  | some (PR.j v, rest) => if skipJws rest = [] then some v else none
  | _ => none

/-- The input does not start with a digit (so a preceding number token
cannot absorb it). -/
def NDH (cs : List Char) : Prop :=
  ∀ c, cs.head? = some c → isDig c = false

mutual
/-- Fuel needed by `pAux` to parse the serialization of a value. -/
def jfuel : Json → Nat
  | Json.null => 0
  | Json.bool _ => 0
  | Json.num _ => 0
  | Json.str _ => 0
  | Json.arr xs => jfuelL xs + 1
  | Json.obj kvs => jfuelM kvs + 1
  termination_by structural j => j

/-- Fuel needed by the element-list mode. -/
def jfuelL : JsonList → Nat
  | JsonList.nil => 0
  | JsonList.cons h t => jfuel h + jfuelT t + 1
  termination_by structural xs => xs

/-- Fuel needed by the element-tail mode. -/
def jfuelT : JsonList → Nat
  | JsonList.nil => 0
  | JsonList.cons h t => jfuel h + jfuelT t + 1
  termination_by structural xs => xs

/-- Fuel needed by the member-list mode. -/
def jfuelM : JsonKVs → Nat
  | JsonKVs.nil => 0
  | JsonKVs.cons _ v t => jfuel v + jfuelMT t + 1
  termination_by structural kvs => kvs

/-- Fuel needed by the member-tail mode. -/
def jfuelMT : JsonKVs → Nat
  | JsonKVs.nil => 0
  | JsonKVs.cons _ v t => jfuel v + jfuelMT t + 1
  termination_by structural kvs => kvs
end

/-! ## The response-recovery operation (`_parse_json_response`) -/

/-- The seven-character tag of a JSON-explicit markdown fence. -/
def tag7 : List Char := (String.data "```json")

/-- A bare three-character markdown fence marker. -/
def fence3 : List Char := (String.data "```")

/-- `json.loads` surfaced as `Except`, the error carrying the document text
(as `JSONDecodeError.doc` does). -/
def loadsE (t : List Char) : Except (List Char) Json :=
  match json_loads t with
  | some v => Except.ok v
  | none => Except.error t

/-- The trimmed substring between the ```json fence tag and the next fence
marker (the text sliced and stripped exactly as the source does). -/
def tagExtract (t : List Char) : List Char :=
  pyStrip (pySlice t (((pyFind t tag7 0).toNat + 7 : Nat) : Int)
    (pyFind t fence3 ((pyFind t tag7 0).toNat + 7)))

/-- The trimmed substring between the first two fence markers. -/
def fenceExtract (t : List Char) : List Char :=
  pyStrip (pySlice t (((pyFind t fence3 0).toNat + 3 : Nat) : Int)
    (pyFind t fence3 ((pyFind t fence3 0).toNat + 3)))

/-- The substring from the first left brace to the last right brace
inclusive, when the braces exist in that order. -/
def braceSpan (t : List Char) : Option (List Char) :=
  if pyFind t [lbrace] 0 ≠ -1 ∧ pyFind t [lbrace] 0 < pyRFind t [rbrace] + 1 then
    some (pySlice t (pyFind t [lbrace] 0) (pyRFind t [rbrace] + 1))
  else none

/-- Model of `ClaudeRFPClient._parse_json_response`: direct parse, then the
markdown-fence branches (each returning the result of a single parse, raising
on its failure), then the first-brace/last-brace fallback, else a parse
failure carrying the original text. -/
def parse_json_response (t : List Char) : Except (List Char) Json :=
  match json_loads t with
  | some v => Except.ok v
  | none =>
    if 0 ≤ pyFind t tag7 0 then loadsE (tagExtract t)
    else if 0 ≤ pyFind t fence3 0 then loadsE (fenceExtract t)
    else
      match braceSpan t with
      | some sub => loadsE sub
      | none => Except.error t

/-! ### The four recovery strategies, stated from the specification's words
(each is a partial function `text → optional parsed object`; the claims
compare the implementation against trying these in order). -/

/-- Strategy 1: parse the whole reply as JSON. -/
def strat1 (t : List Char) : Option Json := json_loads t

/-- Strategy 2: the trimmed substring between a ```json fence tag and
the next fence, parsed as JSON. -/
def strat2 (t : List Char) : Option Json :=
  if 0 ≤ pyFind t tag7 0 then json_loads (tagExtract t) else none

/-- Strategy 3: the trimmed substring between the first two untagged fence
markers, parsed as JSON. -/
def strat3 (t : List Char) : Option Json :=
  if 0 ≤ pyFind t fence3 0 then json_loads (fenceExtract t) else none

/-- Strategy 4: the substring from the first left brace to the last right
brace inclusive, parsed as JSON. -/
def strat4 (t : List Char) : Option Json :=
  (braceSpan t).bind json_loads

/-- The result the response-recovery operation would produce if it tried the
four strategies in order until one succeeds (claim C1's reading). -/
def claimedCascade (t : List Char) : Except (List Char) Json :=
  match strat1 t <|> strat2 t <|> strat3 t <|> strat4 t with
  | some v => Except.ok v
  | none => Except.error t

/-- Claim C1 as stated: the operation's result is always the result of
trying the four strategies in order until one succeeds. -/
def triesInOrderClaim : Prop :=
  ∀ t : List Char, parse_json_response t = claimedCascade t

/-- Wrap a text in a ```json-tagged markdown fence. -/
def tagWrap (d : List Char) : List Char := tag7 ++ '\n' :: (d ++ '\n' :: fence3)

/-- Wrap a text in an untagged markdown fence. -/
def fenceWrap (d : List Char) : List Char := fence3 ++ '\n' :: (d ++ '\n' :: fence3)

/-- Claim C2 as stated: for every JSON object, the four reply shapes all
recover the object, and any reply without a left brace raises the parse
failure carrying the reply. -/
def C2Statement : Prop :=
  (∀ kvs : JsonKVs,
    parse_json_response (dumpV (Json.obj kvs)) = Except.ok (Json.obj kvs) ∧
    parse_json_response (tagWrap (dumpV (Json.obj kvs))) = Except.ok (Json.obj kvs) ∧
    parse_json_response (fenceWrap (dumpV (Json.obj kvs))) = Except.ok (Json.obj kvs) ∧
    (∀ pre post : List Char,
      findAux pre fence3 = none → findAux post fence3 = none →
      (∀ x ∈ pre, x ≠ lbrace ∧ x ≠ rbrace) → (∀ x ∈ post, x ≠ lbrace ∧ x ≠ rbrace) →
      parse_json_response (pre ++ (dumpV (Json.obj kvs) ++ post)) = Except.ok (Json.obj kvs))) ∧
  (∀ t : List Char, (∀ x ∈ t, x ≠ lbrace) → parse_json_response t = Except.error t)

/-! ## Structural validation (`validate_analysis_structure`) -/

/-- Does an association list of parsed members contain the key? -/
def hasKey : JsonKVs → String → Bool
  | JsonKVs.nil, _ => false
  | JsonKVs.cons k _ t, f => k == f || hasKey t f

/-- The six required analysis fields, in the order the source lists them. -/
def requiredFields : List String :=
  ["client_problems", "requirements", "gotchas", "timeline",
   "next_steps", "alignment_questions"]

/-- The required fields absent from the parsed object, in order. -/
def missingFields (a : JsonKVs) : List String :=
  requiredFields.filter (fun f => !hasKey a f)

/-- Model of `validate_analysis_structure`: succeed returning `true`, or
raise a message naming the missing required fields. -/
def validate_analysis_structure (a : JsonKVs) : Except String Bool :=
  if missingFields a = [] then Except.ok true
  else Except.error ("Analysis missing required fields: " ++
    String.intercalate ", " (missingFields a))

/-! ## The `analyze_rfp` exception chain (claim C4) -/

/-- The exception kinds that can escape the endpoint round-trip. Modelled
from the anthropic SDK's class hierarchy, in which `APITimeoutError` is a
subclass of `APIConnectionError`, itself a subclass of `APIError`. -/
inductive ApiExc where
  | apiTimeout (msg : String) : ApiExc
  | apiConnection (msg : String) : ApiExc
  | apiOther (msg : String) : ApiExc
  | jsonDecode (msg : String) : ApiExc
  | generic (msg : String) : ApiExc

/-- Is the exception an `anthropic.APIError` (including its subclasses)? -/
def isAPIError : ApiExc → Bool
  | ApiExc.apiTimeout _ => true
  | ApiExc.apiConnection _ => true
  | ApiExc.apiOther _ => true
  | _ => false

/-- Is the exception an `anthropic.APITimeoutError`? -/
def isAPITimeout : ApiExc → Bool
  | ApiExc.apiTimeout _ => true
  | _ => false

/-- Is the exception a `json.JSONDecodeError`? -/
def isJsonDecode : ApiExc → Bool
  | ApiExc.jsonDecode _ => true
  | _ => false

/-- The `str(e)` payload of the exception. -/
def excMsg : ApiExc → String
  | ApiExc.apiTimeout m => m
  | ApiExc.apiConnection m => m
  | ApiExc.apiOther m => m
  | ApiExc.jsonDecode m => m
  | ApiExc.generic m => m

/-- Model of the `except` chain of `analyze_rfp`: Python tests the clauses
in source order and the first matching clause handles the exception. -/
def analyzeRfpHandler (e : ApiExc) : String :=
  if isAPIError e then "Claude API error: " ++ excMsg e
  else if isAPITimeout e then "Request timed out. Please try again."
  else if isJsonDecode e then "Failed to parse Claude response as JSON: " ++ excMsg e
  else "Unexpected error during RFP analysis: " ++ excMsg e

/-! ## The upload validator (claims C5, C6) -/

/-- Outcome of handing the byte stream to the PDF library's reader.
Modelled from the spec: the library either yields a page count, raises its
dedicated read error for a stream that is not a valid PDF, or raises some
other exception. -/
inductive PdfParse where
  | pages (n : Nat) : PdfParse
  | pdfReadError : PdfParse
  | otherExc (msg : String) : PdfParse

/-- An uploaded byte stream: its parse outcome, its byte size, the read
position the library's reader leaves the stream at (reading a stream moves
its cursor; this field records where parsing stopped), and the current read
position. -/
structure UploadedFile where
  parse : PdfParse
  sizeBytes : Nat
  readerEndPos : Nat
  pos : Nat

/-- Model of `validate_pdf`: run the reader (which moves the read position),
rewind with `seek(0)` on the successful-parse paths only (matching the
source, where `seek(0)` precedes the page-count check inside the `try`
block), and map each failure to its message. -/
def validate_pdf (f : UploadedFile) : (Bool × String) × UploadedFile :=
  match f.parse with
  | PdfParse.pages n =>
    let f2 := { f with pos := 0 }
    if n = 0 then ((false, "PDF appears to be empty (0 pages)"), f2)
    else ((true, ""), f2)
  | PdfParse.pdfReadError =>
    ((false, "File is not a valid PDF or is corrupted"), { f with pos := f.readerEndPos })
  | PdfParse.otherExc m =>
    ((false, "Error reading PDF: " ++ m), { f with pos := f.readerEndPos })

/-- Model of `validate_file_upload` (app layer): reject streams over the
10 MB ceiling with a descriptive message, then defer to `validate_pdf`.
The size message's interpolated megabyte figure is elided as cosmetic. -/
def validate_file_upload (f : UploadedFile) : (Bool × String) × UploadedFile :=
  if 10 * 1024 * 1024 < f.sizeBytes then
    ((false, "File too large. Maximum size is 10MB."), f)
  else
    let r := validate_pdf f
    if r.1.1 then ((true, ""), r.2) else ((false, r.1.2), r.2)

/-- Claim C6 as stated: after validation — whatever the outcome — the
stream's read position is back at the start, and nothing else about the
stream has changed. -/
def C6Statement : Prop :=
  ∀ f : UploadedFile, f.pos = 0 →
    (validate_pdf f).2.pos = 0 ∧ (validate_pdf f).2.parse = f.parse ∧
    (validate_pdf f).2.sizeBytes = f.sizeBytes

/-! ## The report renderer (claims C7, C10) -/

/-- A rendered flowable, keeping the data the claims speak about: paragraph
text with its style name, spacers and page breaks, and table row data.
Geometry and colors are cosmetic and elided. -/
inductive Flowable where
  | para (text : String) (style : String) : Flowable
  | spacer : Flowable
  | pageBreak : Flowable
  | table (rows : List (List String)) : Flowable

/-- The data rows of every table flowable in a rendered section. -/
def tablesOf (fs : List Flowable) : List (List (List String)) :=
  fs.filterMap (fun fl =>
    match fl with
    | Flowable.table r => some r
    | _ => none)

/-- A timeline entry: a record of string fields, as `dict.get` sees it. -/
abbrev TRec : Type := List (String × String)

/-- `item.get(key, dflt)` on a timeline record. -/
def recGet (r : TRec) (k : String) (dflt : String) : String :=
  match List.lookup k r with
  | some v => v
  | none => dflt

/-- The table row rendered for one timeline entry. -/
def timelineRow (r : TRec) : List String :=
  [recGet r "event" "Unknown Event", recGet r "date" "TBD"]

/-- Model of `_create_timeline_section`. -/
def create_timeline_section (timeline : List TRec) : List Flowable :=
  [Flowable.para "Timeline & Key Dates" "SectionHeader",
   Flowable.para "Important milestones and deadlines:" "Normal",
   Flowable.spacer] ++
  (if timeline.isEmpty then
    [Flowable.para "No timeline information available." "Normal"]
  else
    [Flowable.table (["Event", "Date"] :: timeline.map timelineRow)]) ++
  [Flowable.spacer]

/-- Model of `_create_bullet_section`. -/
def create_bullet_section (title : String) (items : List String)
    (intro : Option String) : List Flowable :=
  [Flowable.para title "SectionHeader"] ++
  (match intro with
   | some s => [Flowable.para s "Normal", Flowable.spacer]
   | none => []) ++
  (if items.isEmpty then
    [Flowable.para "No items identified." "Normal"]
  else
    items.map (fun it => Flowable.para ("• " ++ String.mk (pyStrip it.data)) "BulletText")) ++
  [Flowable.spacer]

/-- The analysis dictionary as the report renderer reads it: each of the six
fields may be absent (`analysis.get(key, [])` supplies the default). -/
structure AnalysisDict where
  client_problems : Option (List String)
  requirements : Option (List String)
  gotchas : Option (List String)
  timeline : Option (List TRec)
  next_steps : Option (List String)
  alignment_questions : Option (List String)

/-- Replace each absent field by an explicitly empty one (the dictionary
the renderer effectively sees through `dict.get(key, [])`). -/
def fillDefaults (a : AnalysisDict) : AnalysisDict where
  client_problems := some (a.client_problems.getD [])
  requirements := some (a.requirements.getD [])
  gotchas := some (a.gotchas.getD [])
  timeline := some (a.timeline.getD [])
  next_steps := some (a.next_steps.getD [])
  alignment_questions := some (a.alignment_questions.getD [])

/-- Model of `generate_analysis_pdf`: title page, three bullet sections,
timeline section, in fixed order. The generation timestamp is a parameter. -/
def generate_analysis_pdf (a : AnalysisDict) (rfp_filename : String)
    (now : String) : List Flowable :=
  [Flowable.spacer,
   Flowable.para "RFP Analysis Report" "CustomTitle",
   Flowable.spacer,
   Flowable.para ("Source: " ++ rfp_filename) "Metadata",
   Flowable.para ("Generated: " ++ now) "Metadata",
   Flowable.pageBreak] ++
  create_bullet_section "Client Problems & Challenges"
    (a.client_problems.getD [])
    (some "Key issues and challenges the client is trying to resolve:") ++
  create_bullet_section "Specific Requirements"
    (a.requirements.getD [])
    (some "Must-have requirements, deliverables, and constraints:") ++
  create_bullet_section "Gotchas & Ambiguities"
    (a.gotchas.getD [])
    (some "Red-flag items that need clarification:") ++
  create_timeline_section (a.timeline.getD [])

/-! ## The workbook renderer (claims C8, C9) -/

/-- A spreadsheet cell value: a string or a number. -/
inductive CellVal where
  | s (v : String) : CellVal
  | i (n : Nat) : CellVal

/-- A cell address: column letter and 1-based row. -/
abbrev CellAddr : Type := Char × Nat

/-- A worksheet modelled as its sequence of cell assignments, in program
order (styling-only assignments are cosmetic and elided). -/
abbrev Sheet : Type := List (CellAddr × CellVal)

/-- The value a cell holds after all assignments (the last write wins, as
in `openpyxl`), or `none` if the cell was never written. -/
def cellAt (ws : Sheet) (a : CellAddr) : Option CellVal :=
  match ws with
  | [] => none
  | (a', v) :: rest =>
    match cellAt rest a with
    | some w => some w
    | none => if a'.1 = a.1 ∧ a'.2 = a.2 then some v else none

/-- The data-row assignments of the Next Steps sheet: `idx` enumerates from
1 and `row` advances from 6 in step. -/
def stepRows : List String → Nat → Nat → Sheet
  | [], _, _ => []
  | s :: rest, idx, row =>
    [(('A', row), CellVal.i idx), (('B', row), CellVal.s s),
     (('C', row), CellVal.s "Pending")] ++ stepRows rest (idx + 1) (row + 1)

/-- The data-row assignments of the Alignment Questions sheet. -/
def questionRows : List String → Nat → Nat → Sheet
  | [], _, _ => []
  | q :: rest, idx, row =>
    [(('A', row), CellVal.i idx), (('B', row), CellVal.s q),
     (('C', row), CellVal.s "")] ++ questionRows rest (idx + 1) (row + 1)

/-- Model of `_create_next_steps_sheet`. -/
def create_next_steps_sheet (next_steps : List String) (rfp_filename : String)
    (now : String) : Sheet :=
  [(('A', 1), CellVal.s "Next Steps for Proposal Team"),
   (('A', 2), CellVal.s ("RFP: " ++ rfp_filename)),
   (('A', 3), CellVal.s ("Generated: " ++ now)),
   (('A', 5), CellVal.s "#"),
   (('B', 5), CellVal.s "Action Item"),
   (('C', 5), CellVal.s "Status")] ++ stepRows next_steps 1 6

/-- Model of `_create_alignment_questions_sheet`. -/
def create_alignment_questions_sheet (questions : List String)
    (rfp_filename : String) (now : String) : Sheet :=
  [(('A', 1), CellVal.s "Strategic Alignment Questions"),
   (('A', 2), CellVal.s ("RFP: " ++ rfp_filename)),
   (('A', 3), CellVal.s ("Generated: " ++ now)),
   (('A', 5), CellVal.s "#"),
   (('B', 5), CellVal.s "Question"),
   (('C', 5), CellVal.s "Answer / Notes")] ++ questionRows questions 1 6

/-- Model of `generate_workbook`: the default sheet is removed, then the two
named tabs are created in order. -/
def generate_workbook (next_steps alignment_questions : List String)
    (rfp_filename : String) (now : String) : List (String × Sheet) :=
  [("Next Steps", create_next_steps_sheet next_steps rfp_filename now),
   ("Alignment Questions",
    create_alignment_questions_sheet alignment_questions rfp_filename now)]

/-! # Theorems -/

/-! ## Digits and numbers -/

theorem charToNat_ofNat (n : Nat) (h : Nat.isValidChar n) :
    (Char.ofNat n).toNat = n := by
  unfold Char.ofNat
  rw [dif_pos h]
  rfl

theorem digitsRev_eq_digits : ∀ f n, n ≤ f → digitsRev f n = Nat.digits 10 n := by
  intro f
  induction f with
  | zero =>
    intro n hn
    have : n = 0 := Nat.le_zero.mp hn
    subst this
    simp [digitsRev]
  | succ f ih =>
    intro n hn
    by_cases h0 : n = 0
    · subst h0; simp [digitsRev]
    · rw [digitsRev, if_neg h0, Nat.digits_def' (by omega) (Nat.pos_of_ne_zero h0),
        ih (n / 10) (by omega)]

theorem dval_digitC {d : Nat} (h : d < 10) : dval (digitC d) = d := by
  unfold dval digitC
  rw [charToNat_ofNat (48 + d) (Or.inl (by omega))]
  omega

theorem isDig_digitC {d : Nat} (h : d < 10) : isDig (digitC d) = true := by
  unfold isDig digitC
  rw [charToNat_ofNat (48 + d) (Or.inl (by omega))]
  simp
  omega

theorem dumpNat_all_dig (n : Nat) : ∀ c ∈ dumpNat n, isDig c = true := by
  intro c hc
  unfold dumpNat at hc
  by_cases h0 : n = 0
  · rw [if_pos h0] at hc
    simp at hc
    subst hc
    decide
  · rw [if_neg h0] at hc
    rw [List.mem_reverse, List.mem_map] at hc
    obtain ⟨d, hd, rfl⟩ := hc
    rw [digitsRev_eq_digits n n le_rfl] at hd
    exact isDig_digitC (Nat.digits_lt_base (by omega) hd)

theorem dumpNat_ne_nil (n : Nat) : dumpNat n ≠ [] := by
  unfold dumpNat
  by_cases h0 : n = 0
  · rw [if_pos h0]; simp
  · rw [if_neg h0]
    simp only [ne_eq, List.reverse_eq_nil_iff, List.map_eq_nil_iff]
    have hpos : 0 < n := Nat.pos_of_ne_zero h0
    rw [digitsRev_eq_digits n n le_rfl]
    exact Nat.digits_ne_nil_iff_ne_zero.mpr h0

theorem takeWhile_append_all {p : Char → Bool} {a b : List Char}
    (ha : ∀ c ∈ a, p c = true) (hb : ∀ c, b.head? = some c → p c = false) :
    (a ++ b).takeWhile p = a := by
  induction a with
  | nil =>
    simp only [List.nil_append]
    cases b with
    | nil => rfl
    | cons c t => simp [List.takeWhile_cons, hb c rfl]
  | cons x xs ih =>
    have hx : p x = true := ha x (by simp)
    simp only [List.cons_append, List.takeWhile_cons, hx, if_true]
    rw [ih (fun c hc => ha c (by simp [hc]))]

theorem dropWhile_append_all {p : Char → Bool} {a b : List Char}
    (ha : ∀ c ∈ a, p c = true) (hb : ∀ c, b.head? = some c → p c = false) :
    (a ++ b).dropWhile p = b := by
  induction a with
  | nil =>
    simp only [List.nil_append]
    cases b with
    | nil => rfl
    | cons c t => simp [List.dropWhile_cons, hb c rfl]
  | cons x xs ih =>
    have hx : p x = true := ha x (by simp)
    simp only [List.cons_append, List.dropWhile_cons, hx, if_true]
    exact ih (fun c hc => ha c (by simp [hc]))

theorem foldl_digits (ds : List Nat) (h : ∀ d ∈ ds, d < 10) :
    ((ds.map digitC).reverse).foldl (fun a c => 10 * a + dval c) 0 =
      Nat.ofDigits 10 ds := by
  rw [List.foldl_reverse]
  induction ds with
  | nil => simp [Nat.ofDigits]
  | cons d t ih =>
    simp only [List.map_cons, List.foldr_cons, Nat.ofDigits_cons]
    rw [ih (fun x hx => h x (by simp [hx])), dval_digitC (h d (by simp))]
    omega

theorem pNum_dumpNat (n : Nat) (rest : List Char)
    (hrest : ∀ c, rest.head? = some c → isDig c = false) :
    pNum (dumpNat n ++ rest) = some (n, rest) := by
  unfold pNum
  rw [takeWhile_append_all (dumpNat_all_dig n) hrest,
    dropWhile_append_all (dumpNat_all_dig n) hrest,
    if_neg (dumpNat_ne_nil n)]
  congr 1
  unfold dumpNat
  by_cases h0 : n = 0
  · subst h0; rfl
  · rw [if_neg h0, digitsRev_eq_digits n n le_rfl,
      foldl_digits _ (fun d hd => Nat.digits_lt_base (by omega) hd),
      Nat.ofDigits_digits]

/-! ## Parser round trip -/

theorem strMk_data (s : String) : String.mk s.data = s := rfl

theorem skipJws_cons_of (c : Char) (cs : List Char) (h : isJws c = false) :
    skipJws (c :: cs) = c :: cs := by
  simp [skipJws, List.dropWhile_cons, h]

theorem isDig_not_jws {c : Char} (h : isDig c = true) : isJws c = false := by
  cases hj : isJws c
  · rfl
  · exfalso
    unfold isJws at hj
    simp only [Bool.or_eq_true, beq_iff_eq] at hj
    rcases hj with ((rfl | rfl) | rfl) | rfl <;> revert h <;> decide

theorem isDig_ne_starts {c : Char} (h : isDig c = true) :
    c ≠ lbrace ∧ c ≠ '[' ∧ c ≠ '"' ∧ c ≠ 't' ∧ c ≠ 'f' ∧ c ≠ 'n' ∧
    c ≠ ']' ∧ c ≠ rbrace ∧ c ≠ ',' ∧ c ≠ ':' := by
  refine ⟨?_, ?_, ?_, ?_, ?_, ?_, ?_, ?_, ?_, ?_⟩ <;>
    (rintro rfl; revert h; decide)

theorem dumpNat_head (n : Nat) :
    ∃ c tail, dumpNat n = c :: tail ∧ isDig c = true := by
  cases h : dumpNat n with
  | nil => exact absurd h (dumpNat_ne_nil n)
  | cons c tail => exact ⟨c, tail, rfl, dumpNat_all_dig n c (by rw [h]; simp)⟩

/-- The serialization of any value is nonempty and starts with a character
that is not whitespace and is neither of the two closing delimiters. -/
theorem dumpV_head (J : Json) :
    ∃ c tail, dumpV J = c :: tail ∧ isJws c = false ∧ c ≠ ']' ∧ c ≠ rbrace := by
  cases J with
  | num n =>
    obtain ⟨c, tail, hd, hdig⟩ := dumpNat_head n
    have hs := isDig_ne_starts hdig
    exact ⟨c, tail, by simp [dumpV, hd], isDig_not_jws hdig,
      hs.2.2.2.2.2.2.1, hs.2.2.2.2.2.2.2.1⟩
  | bool b => cases b <;> exact ⟨_, _, rfl, by decide⟩
  | null => exact ⟨_, _, rfl, by decide⟩
  | str s => exact ⟨_, _, rfl, by decide⟩
  | arr xs => exact ⟨_, _, rfl, by decide⟩
  | obj kvs => exact ⟨_, _, rfl, by decide⟩

theorem pStrBody_escL : ∀ (l rest : List Char),
    pStrBody (escL l ++ '"' :: rest) = some (l, rest) := by
  intro l
  induction l with
  | nil =>
    intro rest
    rw [show escL [] ++ '"' :: rest = '"' :: rest from rfl, pStrBody.eq_def]
    simp
  | cons c t ih =>
    intro rest
    by_cases h1 : c = '"'
    · subst h1
      rw [show escL ('"' :: t) ++ '"' :: rest
          = '\\' :: '"' :: (escL t ++ '"' :: rest) by simp [escL, escChar],
        pStrBody.eq_def]
      simp [escCode, ih]
    · by_cases h2 : c = '\\'
      · subst h2
        rw [show escL ('\\' :: t) ++ '"' :: rest
            = '\\' :: '\\' :: (escL t ++ '"' :: rest) by simp [escL, escChar],
          pStrBody.eq_def]
        simp [escCode, ih]
      · by_cases h3 : c = '\n'
        · subst h3
          rw [show escL ('\n' :: t) ++ '"' :: rest
              = '\\' :: 'n' :: (escL t ++ '"' :: rest) by simp [escL, escChar],
            pStrBody.eq_def]
          simp [escCode, ih]
        · by_cases h4 : c = '\r'
          · subst h4
            rw [show escL ('\r' :: t) ++ '"' :: rest
                = '\\' :: 'r' :: (escL t ++ '"' :: rest) by simp [escL, escChar],
              pStrBody.eq_def]
            simp [escCode, ih]
          · by_cases h5 : c = '\t'
            · subst h5
              rw [show escL ('\t' :: t) ++ '"' :: rest
                  = '\\' :: 't' :: (escL t ++ '"' :: rest) by simp [escL, escChar],
                pStrBody.eq_def]
              simp [escCode, ih]
            · rw [show escL (c :: t) ++ '"' :: rest
                  = c :: (escL t ++ '"' :: rest) by simp [escL, escChar, h1, h2, h3, h4, h5],
                pStrBody.eq_def]
              simp only [h1, h2, if_false, ih, reduceIte]
              simp [h1, h2, ih]

theorem skipJws_cons_sp (cs : List Char) : skipJws (' ' :: cs) = skipJws cs := rfl

theorem pV_ws (f : Nat) (cs : List Char) :
    pAux (f + 1) PK.v (' ' :: cs) = pAux (f + 1) PK.v cs := by
  simp only [pAux]
  rw [skipJws_cons_sp]

theorem NDH_cons (c : Char) (cs : List Char) (h : isDig c = false) :
    NDH (c :: cs) := by
  intro x hx
  simp at hx
  subst hx
  exact h

/-- The remainder following an element inside an array context never starts
with a digit. -/
theorem NDH_ERest (t : JsonList) (rest : List Char) :
    NDH (dumpERest t ++ ']' :: rest) := by
  cases t with
  | nil => exact NDH_cons ']' rest (by decide)
  | cons h tl => exact NDH_cons ',' _ (by decide)

/-- The remainder following a member value inside an object context never
starts with a digit. -/
theorem NDH_MRest (t : JsonKVs) (rest : List Char) :
    NDH (dumpMRest t ++ rbrace :: rest) := by
  cases t with
  | nil => exact NDH_cons rbrace rest (by decide)
  | cons k v tl => exact NDH_cons ',' _ (by decide)


theorem pES_step (f : Nat) (c : Char) (X R rest : List Char) (v : Json) (xs : JsonList)
    (hw : isJws c = false) (hnb : c ≠ ']')
    (h1 : pAux f PK.v (c :: X) = some (PR.j v, R))
    (h2 : pAux f PK.et R = some (PR.l xs, rest)) :
    pAux (f + 1) PK.es (c :: X) = some (PR.l (JsonList.cons v xs), rest) := by
  simp only [pAux]
  rw [skipJws_cons_of c _ hw]
  simp only [hnb, ite_false, if_false, h1, h2]

theorem pET_step (f : Nat) (X R rest : List Char) (v : Json) (xs : JsonList)
    (h1 : pAux f PK.v X = some (PR.j v, R))
    (h2 : pAux f PK.et R = some (PR.l xs, rest)) :
    pAux (f + 1) PK.et (',' :: X) = some (PR.l (JsonList.cons v xs), rest) := by
  simp only [pAux]
  rw [skipJws_cons_of ',' _ (by decide)]
  simp only [h1, h2]
  rfl

theorem pV_step_arr (f : Nat) (X r : List Char) (xs : JsonList)
    (h1 : pAux f PK.es X = some (PR.l xs, r)) :
    pAux (f + 1) PK.v ('[' :: X) = some (PR.j (Json.arr xs), r) := by
  simp only [pAux]
  rw [skipJws_cons_of '[' _ (by decide)]
  simp only [h1]
  rfl

theorem pV_step_obj (f : Nat) (X r : List Char) (kvs : JsonKVs)
    (h1 : pAux f PK.ms X = some (PR.m kvs, r)) :
    pAux (f + 1) PK.v (lbrace :: X) = some (PR.j (Json.obj kvs), r) := by
  simp only [pAux]
  rw [skipJws_cons_of lbrace _ (by decide)]
  simp only [h1]
  rfl

theorem pMS_step (f : Nat) (Y r2 r3 r4 : List Char) (kd : List Char) (v : Json) (kvs : JsonKVs)
    (h1 : pStrBody Y = some (kd, ':' :: r2))
    (h2 : pAux f PK.v r2 = some (PR.j v, r3))
    (h3 : pAux f PK.mt r3 = some (PR.m kvs, r4)) :
    pAux (f + 1) PK.ms ('"' :: Y) = some (PR.m (JsonKVs.cons (String.mk kd) v kvs), r4) := by
  simp only [pAux]
  rw [skipJws_cons_of '"' _ (by decide)]
  simp only [h1, h2, h3]
  rw [skipJws_cons_of ':' _ (by decide)]
  simp only [h2, h3]
  rfl

theorem pMT_step (f : Nat) (W Y r2 r3 r4 : List Char) (kd : List Char) (v : Json) (kvs : JsonKVs)
    (hskip : skipJws W = '"' :: Y)
    (h1 : pStrBody Y = some (kd, ':' :: r2))
    (h2 : pAux f PK.v r2 = some (PR.j v, r3))
    (h3 : pAux f PK.mt r3 = some (PR.m kvs, r4)) :
    pAux (f + 1) PK.mt (',' :: W) = some (PR.m (JsonKVs.cons (String.mk kd) v kvs), r4) := by
  simp only [pAux]
  rw [skipJws_cons_of ',' _ (by decide)]
  simp only [hskip, h1, h2, h3]
  rw [skipJws_cons_of ':' _ (by decide)]
  simp only [h2, h3]
  rfl

mutual

theorem rtV (J : Json) : ∀ (f : Nat) (rest : List Char), jfuel J < f → NDH rest →
    pAux f PK.v (dumpV J ++ rest) = some (PR.j J, rest) := by
  cases J with
  | null =>
    intro f rest hf _
    obtain ⟨f1, rfl⟩ : ∃ f1, f = f1 + 1 := ⟨f - 1, by omega⟩
    rfl
  | bool b =>
    intro f rest hf _
    obtain ⟨f1, rfl⟩ : ∃ f1, f = f1 + 1 := ⟨f - 1, by omega⟩
    cases b <;> rfl
  | num n =>
    intro f rest hf hr
    obtain ⟨f1, rfl⟩ : ∃ f1, f = f1 + 1 := ⟨f - 1, by omega⟩
    obtain ⟨c, tail, hd, hdig⟩ := dumpNat_head n
    have hs := isDig_ne_starts hdig
    have hw := isDig_not_jws hdig
    have e1 : dumpV (Json.num n) ++ rest = c :: (tail ++ rest) := by
      simp [dumpV, hd]
    rw [e1]
    simp only [pAux]
    rw [skipJws_cons_of c _ hw]
    simp only [hs.1, hs.2.1, hs.2.2.1, hs.2.2.2.1, hs.2.2.2.2.1, hs.2.2.2.2.2.1, hdig,
      ite_false, ite_true, if_false, if_true]
    rw [← List.cons_append, ← hd, pNum_dumpNat n rest hr]
    rfl
  | str s =>
    intro f rest hf _
    obtain ⟨f1, rfl⟩ : ∃ f1, f = f1 + 1 := ⟨f - 1, by omega⟩
    have e1 : dumpV (Json.str s) ++ rest = '"' :: (escL s.data ++ '"' :: rest) := by
      simp [dumpV]
    rw [e1]
    show Option.map (fun p => (PR.j (Json.str (String.mk p.1)), p.2))
        (pStrBody (escL s.data ++ '"' :: rest)) = _
    rw [pStrBody_escL]
    rfl
  | arr xs =>
    intro f rest hf hr
    obtain ⟨f1, rfl⟩ : ∃ f1, f = f1 + 1 := ⟨f - 1, by omega⟩
    have e1 : dumpV (Json.arr xs) ++ rest = '[' :: (dumpElems xs ++ ']' :: rest) := by
      simp [dumpV]
    rw [e1]
    exact pV_step_arr f1 _ rest xs (rtES xs f1 rest (by simp [jfuel] at hf; omega))
  | obj kvs =>
    intro f rest hf hr
    obtain ⟨f1, rfl⟩ : ∃ f1, f = f1 + 1 := ⟨f - 1, by omega⟩
    have e1 : dumpV (Json.obj kvs) ++ rest = lbrace :: (dumpMembers kvs ++ rbrace :: rest) := by
      simp [dumpV]
    rw [e1]
    exact pV_step_obj f1 _ rest kvs (rtMS kvs f1 rest (by simp [jfuel] at hf; omega))

theorem rtES (xs : JsonList) : ∀ (f : Nat) (rest : List Char), jfuelL xs < f →
    pAux f PK.es (dumpElems xs ++ ']' :: rest) = some (PR.l xs, rest) := by
  cases xs with
  | nil =>
    intro f rest hf
    obtain ⟨f1, rfl⟩ : ∃ f1, f = f1 + 1 := ⟨f - 1, by omega⟩
    rfl
  | cons h t =>
    intro f rest hf
    obtain ⟨f1, rfl⟩ : ∃ f1, f = f1 + 1 := ⟨f - 1, by omega⟩
    obtain ⟨c, tail, hd, hw, hnb, hnr⟩ := dumpV_head h
    have e1 : dumpElems (JsonList.cons h t) ++ ']' :: rest
        = c :: (tail ++ (dumpERest t ++ ']' :: rest)) := by
      simp [dumpElems, hd]
    rw [e1]
    refine pES_step f1 c _ _ rest h t hw hnb ?_
      (rtET t f1 rest (by simp [jfuelL] at hf; omega))
    rw [show c :: (tail ++ (dumpERest t ++ ']' :: rest))
        = dumpV h ++ (dumpERest t ++ ']' :: rest) by simp [hd]]
    exact rtV h f1 _ (by simp [jfuelL] at hf; omega) (NDH_ERest t rest)

theorem rtET (xs : JsonList) : ∀ (f : Nat) (rest : List Char), jfuelT xs < f →
    pAux f PK.et (dumpERest xs ++ ']' :: rest) = some (PR.l xs, rest) := by
  cases xs with
  | nil =>
    intro f rest hf
    obtain ⟨f1, rfl⟩ : ∃ f1, f = f1 + 1 := ⟨f - 1, by omega⟩
    rfl
  | cons h t =>
    intro f rest hf
    obtain ⟨f1, rfl⟩ : ∃ f1, f = f1 + 1 := ⟨f - 1, by omega⟩
    have hf' : jfuel h + jfuelT t + 1 < f1 + 1 := by
      simpa [jfuelT] using hf
    obtain ⟨f2, rfl⟩ : ∃ f2, f1 = f2 + 1 := ⟨f1 - 1, by omega⟩
    have e1 : dumpERest (JsonList.cons h t) ++ ']' :: rest
        = ',' :: (' ' :: (dumpV h ++ (dumpERest t ++ ']' :: rest))) := by
      simp [dumpERest]
    rw [e1]
    refine pET_step (f2 + 1) _ _ rest h t ?_
      (rtET t (f2 + 1) rest (by omega))
    rw [pV_ws f2 _]
    exact rtV h (f2 + 1) _ (by omega) (NDH_ERest t rest)

theorem rtMS (kvs : JsonKVs) : ∀ (f : Nat) (rest : List Char), jfuelM kvs < f →
    pAux f PK.ms (dumpMembers kvs ++ rbrace :: rest) = some (PR.m kvs, rest) := by
  cases kvs with
  | nil =>
    intro f rest hf
    obtain ⟨f1, rfl⟩ : ∃ f1, f = f1 + 1 := ⟨f - 1, by omega⟩
    rfl
  | cons k v t =>
    intro f rest hf
    obtain ⟨f1, rfl⟩ : ∃ f1, f = f1 + 1 := ⟨f - 1, by omega⟩
    have hf' : jfuel v + jfuelMT t + 1 < f1 + 1 := by
      simpa [jfuelM] using hf
    obtain ⟨f2, rfl⟩ : ∃ f2, f1 = f2 + 1 := ⟨f1 - 1, by omega⟩
    have e1 : dumpMembers (JsonKVs.cons k v t) ++ rbrace :: rest
        = '"' :: (escL k.data ++ '"' :: (':' :: (' ' ::
            (dumpV v ++ (dumpMRest t ++ rbrace :: rest))))) := by
      simp [dumpMembers]
    rw [e1, show (JsonKVs.cons k v t) = (JsonKVs.cons (String.mk k.data) v t) from rfl]
    refine pMS_step (f2 + 1) _ _ _ rest k.data v t (pStrBody_escL k.data _) ?_
      (rtMT t (f2 + 1) rest (by omega))
    rw [pV_ws f2 _]
    exact rtV v (f2 + 1) _ (by omega) (NDH_MRest t rest)

theorem rtMT (kvs : JsonKVs) : ∀ (f : Nat) (rest : List Char), jfuelMT kvs < f →
    pAux f PK.mt (dumpMRest kvs ++ rbrace :: rest) = some (PR.m kvs, rest) := by
  cases kvs with
  | nil =>
    intro f rest hf
    obtain ⟨f1, rfl⟩ : ∃ f1, f = f1 + 1 := ⟨f - 1, by omega⟩
    rfl
  | cons k v t =>
    intro f rest hf
    obtain ⟨f1, rfl⟩ : ∃ f1, f = f1 + 1 := ⟨f - 1, by omega⟩
    have hf' : jfuel v + jfuelMT t + 1 < f1 + 1 := by
      simpa [jfuelMT] using hf
    obtain ⟨f2, rfl⟩ : ∃ f2, f1 = f2 + 1 := ⟨f1 - 1, by omega⟩
    have e1 : dumpMRest (JsonKVs.cons k v t) ++ rbrace :: rest
        = ',' :: (' ' :: ('"' :: (escL k.data ++ '"' :: (':' :: (' ' ::
            (dumpV v ++ (dumpMRest t ++ rbrace :: rest))))))) := by
      simp [dumpMRest]
    rw [e1, show (JsonKVs.cons k v t) = (JsonKVs.cons (String.mk k.data) v t) from rfl]
    refine pMT_step (f2 + 1) _ _ _ _ rest k.data v t rfl (pStrBody_escL k.data _) ?_
      (rtMT t (f2 + 1) rest (by omega))
    rw [pV_ws f2 _]
    exact rtV v (f2 + 1) _ (by omega) (NDH_MRest t rest)

end


mutual

theorem jfuel_le (J : Json) : jfuel J ≤ 2 * (dumpV J).length := by
  cases J with
  | null => simp [jfuel, dumpV]
  | bool b => cases b <;> simp [jfuel, dumpV]
  | num n => simp [jfuel]
  | str s => simp [jfuel]
  | arr xs =>
    have h := jfuelL_le xs
    have e : (dumpV (Json.arr xs)).length = (dumpElems xs).length + 2 := by
      simp [dumpV]
    rw [jfuel, e]
    omega
  | obj kvs =>
    have h := jfuelM_le kvs
    have e : (dumpV (Json.obj kvs)).length = (dumpMembers kvs).length + 2 := by
      simp [dumpV]
    rw [jfuel, e]
    omega

theorem jfuelL_le (xs : JsonList) : jfuelL xs ≤ 2 * (dumpElems xs).length + 3 := by
  cases xs with
  | nil => simp [jfuelL]
  | cons h t =>
    have h1 := jfuel_le h
    have h2 := jfuelT_le t
    have e : (dumpElems (JsonList.cons h t)).length
        = (dumpV h).length + (dumpERest t).length := by
      simp [dumpElems]
    rw [jfuelL, e]
    omega

theorem jfuelT_le (xs : JsonList) : jfuelT xs ≤ 2 * (dumpERest xs).length + 1 := by
  cases xs with
  | nil => simp [jfuelT]
  | cons h t =>
    have h1 := jfuel_le h
    have h2 := jfuelT_le t
    have e : (dumpERest (JsonList.cons h t)).length
        = (dumpV h).length + (dumpERest t).length + 2 := by
      simp [dumpERest]
    rw [jfuelT, e]
    omega

theorem jfuelM_le (kvs : JsonKVs) : jfuelM kvs ≤ 2 * (dumpMembers kvs).length + 3 := by
  cases kvs with
  | nil => simp [jfuelM]
  | cons k v t =>
    have h1 := jfuel_le v
    have h2 := jfuelMT_le t
    have e : (dumpMembers (JsonKVs.cons k v t)).length
        = (escL k.data).length + (dumpV v).length + (dumpMRest t).length + 4 := by
      simp [dumpMembers]
      omega
    rw [jfuelM, e]
    omega

theorem jfuelMT_le (kvs : JsonKVs) : jfuelMT kvs ≤ 2 * (dumpMRest kvs).length + 1 := by
  cases kvs with
  | nil => simp [jfuelMT]
  | cons k v t =>
    have h1 := jfuel_le v
    have h2 := jfuelMT_le t
    have e : (dumpMRest (JsonKVs.cons k v t)).length
        = (escL k.data).length + (dumpV v).length + (dumpMRest t).length + 6 := by
      simp [dumpMRest]
      omega
    rw [jfuelMT, e]
    omega

end

/-- Round trip: parsing the serialization of a value recovers the value. -/
theorem loads_dumps (J : Json) : json_loads (dumpV J) = some J := by
  unfold json_loads
  have hf : jfuel J < 2 * (dumpV J).length + 4 := by
    have := jfuel_le J
    omega
  obtain ⟨f1, ef⟩ : ∃ f1, 2 * (dumpV J).length + 4 = f1 + 1 := ⟨_, rfl⟩
  rw [ef]
  have := rtV J (f1 + 1) [] (by omega) (by intro c hc; simp at hc)
  rw [List.append_nil] at this
  rw [this]
  rfl


/-! ## Search and slicing toolkit -/

theorem fence3_eq : fence3 = btick :: btick :: btick :: [] := by decide

theorem tag7_eq : tag7 = btick :: btick :: btick :: 'j' :: 's' :: 'o' :: 'n' :: [] := by
  decide

theorem findAux_charFree_none (l : List Char) (c0 : Char) (p' : List Char)
    (h : ∀ x ∈ l, x ≠ c0) : findAux l (c0 :: p') = none := by
  induction l with
  | nil => simp [findAux]
  | cons x t ih =>
    have hx : ¬ List.isPrefixOf (c0 :: p') (x :: t) = true := by
      intro hp
      simp only [List.isPrefixOf, Bool.and_eq_true, beq_iff_eq] at hp
      exact (h x (by simp)) hp.1.symm
    simp only [findAux, if_neg hx, ih (fun y hy => h y (by simp [hy]))]
    rfl

theorem findAux_append_charFree (a b : List Char) (c0 : Char) (p' : List Char)
    (ha : ∀ x ∈ a, x ≠ c0) :
    findAux (a ++ b) (c0 :: p') = (findAux b (c0 :: p')).map (· + a.length) := by
  induction a with
  | nil =>
    cases h : findAux b (c0 :: p') <;> simp [h]
  | cons x t ih =>
    have hx : ¬ List.isPrefixOf (c0 :: p') (x :: (t ++ b)) = true := by
      intro hp
      simp only [List.isPrefixOf, Bool.and_eq_true, beq_iff_eq] at hp
      exact (ha x (by simp)) hp.1.symm
    simp only [List.cons_append, findAux, if_neg hx, List.append_eq,
      ih (fun y hy => ha y (by simp [hy]))]
    cases h : findAux b (c0 :: p') with
    | none => rfl
    | some i => simp; omega

theorem findAux_append_fence (d b : List Char) (p' : List Char)
    (hb : ∀ x, b.head? = some x → x ≠ btick)
    (hd : findAux d fence3 = none) :
    findAux (d ++ b) (btick :: btick :: btick :: p') =
      (findAux b (btick :: btick :: btick :: p')).map (· + d.length) := by
  induction d with
  | nil =>
    cases h : findAux b (btick :: btick :: btick :: p') <;> simp [h]
  | cons x t ih =>
    have hd1 : ¬ List.isPrefixOf fence3 (x :: t) = true := by
      intro hp
      simp only [findAux, if_pos hp] at hd
      exact Option.noConfusion hd
    have hd2 : findAux t fence3 = none := by
      simp only [findAux, if_neg hd1] at hd
      cases h : findAux t fence3 with
      | none => rfl
      | some i => rw [h] at hd; simp at hd
    have hx : ¬ List.isPrefixOf (btick :: btick :: btick :: p') (x :: (t ++ b)) = true := by
      intro hp
      rcases t with _ | ⟨y, _ | ⟨z, t2⟩⟩
      · simp only [List.nil_append, List.isPrefixOf, Bool.and_eq_true, beq_iff_eq] at hp
        rcases b with _ | ⟨w, b2⟩
        · simp [List.isPrefixOf] at hp
        · simp only [List.isPrefixOf, Bool.and_eq_true, beq_iff_eq] at hp
          exact (hb w rfl) hp.2.1.symm
      · simp only [List.cons_append, List.nil_append, List.isPrefixOf,
          Bool.and_eq_true, beq_iff_eq] at hp
        rcases b with _ | ⟨w, b2⟩
        · simp at hp
        · simp only [List.isPrefixOf, Bool.and_eq_true, beq_iff_eq] at hp
          exact (hb w rfl) hp.2.2.1.symm
      · apply hd1
        rw [fence3_eq]
        simp only [List.cons_append, List.isPrefixOf, Bool.and_eq_true, beq_iff_eq] at hp ⊢
        exact ⟨hp.1, hp.2.1, hp.2.2.1, trivial⟩
    simp only [List.cons_append, findAux, if_neg hx, List.append_eq, ih hd2]
    cases h : findAux b (btick :: btick :: btick :: p') with
    | none => rfl
    | some i => simp; omega

theorem rfindAux_charFree_none (l : List Char) (c0 : Char)
    (h : ∀ x ∈ l, x ≠ c0) : rfindAux l [c0] = none := by
  induction l with
  | nil => simp [rfindAux]
  | cons x t ih =>
    have hx : ¬ List.isPrefixOf [c0] (x :: t) = true := by
      intro hp
      simp only [List.isPrefixOf, Bool.and_eq_true, beq_iff_eq] at hp
      exact (h x (by simp)) hp.1.symm
    simp only [rfindAux, ih (fun y hy => h y (by simp [hy])), if_neg hx]

theorem rfindAux_append_charFree (a b : List Char) (c0 : Char)
    (hb : ∀ x ∈ b, x ≠ c0) :
    rfindAux (a ++ b) [c0] = rfindAux a [c0] := by
  induction a with
  | nil => simp [rfindAux_charFree_none b c0 hb, rfindAux]
  | cons x t ih =>
    have he : List.isPrefixOf [c0] (x :: (t ++ b)) = List.isPrefixOf [c0] (x :: t) := by
      simp [List.isPrefixOf]
    simp only [List.cons_append, rfindAux, List.append_eq, ih, he]

theorem rfindAux_concat_self (y : List Char) (c0 : Char) :
    rfindAux (y ++ [c0]) [c0] = some y.length := by
  induction y with
  | nil => simp [rfindAux, List.isPrefixOf]
  | cons x t ih =>
    simp only [List.cons_append, rfindAux, List.append_eq, ih, List.length_cons]

theorem pySlice_nat (l : List Char) (a k : Nat) (h : a + k ≤ l.length) :
    pySlice l ((a : Nat) : Int) (((a + k : Nat) : Nat) : Int) = (l.drop a).take k := by
  unfold pySlice
  have h1 : ¬ ((a : Int) < 0) := by omega
  have h2 : ¬ (((a + k : Nat) : Int) < 0) := by
    simp only [not_lt]
    positivity
  simp only [if_neg h1, if_neg h2, Int.toNat_natCast]
  rw [min_eq_left (by omega), min_eq_left (by omega)]
  congr 1
  omega

theorem pyStrip_wrap (dh : Char) (dt : List Char) (c1 c2 : Char)
    (h1 : isPyWs c1 = true) (h2 : isPyWs c2 = true)
    (hh : isPyWs dh = false)
    (hl : ∀ x, (dh :: dt).getLast? = some x → isPyWs x = false) :
    pyStrip (c1 :: ((dh :: dt) ++ [c2])) = dh :: dt := by
  unfold pyStrip
  rw [show List.dropWhile isPyWs (c1 :: ((dh :: dt) ++ [c2]))
      = List.dropWhile isPyWs ((dh :: dt) ++ [c2]) by simp [List.dropWhile_cons, h1]]
  rw [show List.dropWhile isPyWs ((dh :: dt) ++ [c2]) = (dh :: dt) ++ [c2] by
    simp [List.cons_append, List.dropWhile_cons, hh]]
  rw [show ((dh :: dt) ++ [c2]).reverse = c2 :: (dh :: dt).reverse by
    simp [List.reverse_append]]
  rw [show List.dropWhile isPyWs (c2 :: (dh :: dt).reverse)
      = List.dropWhile isPyWs ((dh :: dt).reverse) by simp [List.dropWhile_cons, h2]]
  rcases hrev : (dh :: dt).reverse with _ | ⟨y, ys⟩
  · exact absurd hrev (by simp)
  · have hy : (dh :: dt).getLast? = some y := by
      rw [← List.head?_reverse, hrev]
      rfl
    rw [show List.dropWhile isPyWs (y :: ys) = y :: ys by
      simp [List.dropWhile_cons, hl y hy]]
    rw [← hrev, List.reverse_reverse]

theorem json_loads_cons_bad (c : Char) (rest : List Char)
    (hw : isJws c = false) (h1 : c ≠ lbrace) (h2 : c ≠ '[') (h3 : c ≠ '"')
    (h4 : c ≠ 't') (h5 : c ≠ 'f') (h6 : c ≠ 'n') (h7 : isDig c = false) :
    json_loads (c :: rest) = none := by
  unfold json_loads
  obtain ⟨f1, ef⟩ : ∃ f1, 2 * (c :: rest).length + 4 = f1 + 1 := ⟨2 * (c :: rest).length + 3, by omega⟩
  rw [ef]
  simp only [pAux]
  rw [skipJws_cons_of c _ hw]
  simp [h1, h2, h3, h4, h5, h6, h7]


/-! ## Computations of the recovery operation on the wrapped reply shapes -/

theorem head_neq_of_all (l : List Char) (c0 : Char) (h : ∀ x ∈ l, x ≠ c0) :
    ∀ x, l.head? = some x → x ≠ c0 := by
  intro x hx
  cases l with
  | nil => simp at hx
  | cons y t =>
    simp at hx
    subst hx
    exact h y (by simp)

theorem findAux_self (c : Char) (p X : List Char) :
    findAux ((c :: p) ++ X) (c :: p) = some 0 := by
  have hp : List.isPrefixOf (c :: p) ((c :: p) ++ X) = true :=
    List.isPrefixOf_iff_prefix.mpr (List.prefix_append _ _)
  rw [List.cons_append] at hp ⊢
  simp only [findAux, if_pos hp]

theorem findAux_cons_neg (c : Char) (tl pat : List Char)
    (h : ¬ List.isPrefixOf pat (c :: tl) = true) :
    findAux (c :: tl) pat = (findAux tl pat).map (· + 1) := by
  simp only [findAux, if_neg h]

/-- The body after a fence: searching for the closing fence lands right
after the trailing newline. -/
theorem findAux_nlwrap (d : List Char) (hd : findAux d fence3 = none) :
    findAux ('\n' :: (d ++ '\n' :: fence3)) fence3 = some (d.length + 2) := by
  rw [findAux_cons_neg '\n' _ fence3
    (by rw [fence3_eq]; simp +decide [List.isPrefixOf])]
  rw [show (fence3 = btick :: btick :: btick :: []) from fence3_eq]
  rw [findAux_append_fence d ('\n' :: (btick :: btick :: btick :: []))
    [] (by
      intro x hx hbt
      simp at hx
      subst hbt
      exact absurd hx (by decide)) hd]
  rw [show findAux ('\n' :: (btick :: btick :: btick :: []))
      (btick :: btick :: btick :: []) = some 1 by decide]
  simp
  omega

theorem json_loads_btick (rest : List Char) : json_loads (btick :: rest) = none :=
  json_loads_cons_bad btick rest (by decide) (by decide) (by decide) (by decide)
    (by decide) (by decide) (by decide) (by decide)

theorem tagWrap_loads (d : List Char) : json_loads (tagWrap d) = none := by
  rw [show tagWrap d = btick :: (btick :: btick :: 'j' :: 's' :: 'o' :: 'n' ::
    '\n' :: (d ++ '\n' :: fence3)) by simp [tagWrap, tag7_eq]]
  exact json_loads_btick _

theorem fenceWrap_loads (d : List Char) : json_loads (fenceWrap d) = none := by
  rw [show fenceWrap d = btick :: (btick :: btick ::
    '\n' :: (d ++ '\n' :: fence3)) by simp [fenceWrap, fence3_eq]]
  exact json_loads_btick _

theorem pyFind_tagWrap_tag7 (d : List Char) : pyFind (tagWrap d) tag7 0 = 0 := by
  unfold pyFind
  rw [List.drop_zero, show tagWrap d = tag7 ++ ('\n' :: (d ++ '\n' :: fence3)) from rfl,
    tag7_eq, findAux_self]
  rfl

theorem pyFind_tagWrap_fence3 (d : List Char) (hd : findAux d fence3 = none) :
    pyFind (tagWrap d) fence3 7 = ((d.length + 9 : Nat) : Int) := by
  unfold pyFind
  rw [show (tagWrap d).drop 7 = '\n' :: (d ++ '\n' :: fence3) from rfl,
    findAux_nlwrap d hd]
  simp
  omega

theorem take_nlwrap (d : List Char) :
    ('\n' :: (d ++ '\n' :: fence3)).take (d.length + 2) = '\n' :: (d ++ ['\n']) := by
  rw [show d ++ '\n' :: fence3 = (d ++ ['\n']) ++ fence3 by simp,
    show d.length + 2 = ((d ++ ['\n']).length + 1) by simp]
  rw [List.take_succ_cons, List.take_left]

theorem slice_tagWrap (d : List Char) :
    pySlice (tagWrap d) ((7 : Nat) : Int) ((d.length + 9 : Nat) : Int)
      = '\n' :: (d ++ ['\n']) := by
  rw [show ((d.length + 9 : Nat)) = 7 + (d.length + 2) by omega]
  rw [pySlice_nat (tagWrap d) 7 (d.length + 2)
    (by simp [tagWrap, tag7_eq, fence3_eq]; omega)]
  rw [show (tagWrap d).drop 7 = '\n' :: (d ++ '\n' :: fence3) from rfl]
  exact take_nlwrap d

theorem strip_obj_wrap (kvs : JsonKVs) :
    pyStrip ('\n' :: (dumpV (Json.obj kvs) ++ ['\n'])) = dumpV (Json.obj kvs) := by
  rw [show dumpV (Json.obj kvs) = lbrace :: (dumpMembers kvs ++ [rbrace]) from rfl]
  apply pyStrip_wrap
  · decide
  · decide
  · decide
  · intro x hx
    rw [show lbrace :: (dumpMembers kvs ++ [rbrace])
        = (lbrace :: dumpMembers kvs) ++ [rbrace] from rfl,
      List.getLast?_concat] at hx
    simp at hx
    rw [← hx]
    decide

/-- On a ```json-tagged fence around a serialized object, the recovery
operation returns the object (provided the body contains no fence marker). -/
theorem parse_tagWrap (kvs : JsonKVs)
    (hd : findAux (dumpV (Json.obj kvs)) fence3 = none) :
    parse_json_response (tagWrap (dumpV (Json.obj kvs))) = Except.ok (Json.obj kvs) := by
  unfold parse_json_response
  rw [tagWrap_loads]
  rw [if_pos (by rw [pyFind_tagWrap_tag7])]
  unfold tagExtract
  rw [pyFind_tagWrap_tag7]
  rw [show ((0 : Int).toNat + 7 : Nat) = (7 : Nat) from rfl]
  rw [pyFind_tagWrap_fence3 _ hd, slice_tagWrap, strip_obj_wrap]
  unfold loadsE
  rw [loads_dumps]


theorem findAux_fenceWrap_tag7 (d : List Char)
    (hd : findAux d fence3 = none) :
    findAux (fenceWrap d) tag7 = none := by
  rw [show fenceWrap d = btick :: (btick :: (btick ::
    ('\n' :: (d ++ '\n' :: fence3)))) by simp [fenceWrap, fence3_eq]]
  rw [findAux_cons_neg _ _ tag7 (by rw [tag7_eq]; simp +decide [List.isPrefixOf])]
  rw [findAux_cons_neg _ _ tag7 (by rw [tag7_eq]; simp +decide [List.isPrefixOf])]
  rw [findAux_cons_neg _ _ tag7 (by rw [tag7_eq]; simp +decide [List.isPrefixOf])]
  rw [findAux_cons_neg _ _ tag7 (by rw [tag7_eq]; simp +decide [List.isPrefixOf])]
  rw [tag7_eq]
  rw [findAux_append_fence d ('\n' :: fence3) ('j' :: 's' :: 'o' :: 'n' :: [])
    (by
      intro x hx hbt
      simp at hx
      subst hbt
      exact absurd hx (by decide)) hd]
  rw [show findAux ('\n' :: fence3) (btick :: btick :: btick ::
    'j' :: 's' :: 'o' :: 'n' :: []) = none by decide]
  rfl

theorem pyFind_fenceWrap_tag7 (d : List Char) (hd : findAux d fence3 = none) :
    pyFind (fenceWrap d) tag7 0 = -1 := by
  unfold pyFind
  rw [List.drop_zero, findAux_fenceWrap_tag7 d hd]

theorem pyFind_fenceWrap_fence3 (d : List Char) :
    pyFind (fenceWrap d) fence3 0 = 0 := by
  unfold pyFind
  rw [List.drop_zero, show fenceWrap d = fence3 ++ ('\n' :: (d ++ '\n' :: fence3)) from rfl,
    fence3_eq, findAux_self]
  rfl

theorem pyFind_fenceWrap_fence3_from3 (d : List Char) (hd : findAux d fence3 = none) :
    pyFind (fenceWrap d) fence3 3 = ((d.length + 5 : Nat) : Int) := by
  unfold pyFind
  rw [show (fenceWrap d).drop 3 = '\n' :: (d ++ '\n' :: fence3) from rfl,
    findAux_nlwrap d hd]
  simp
  omega

theorem slice_fenceWrap (d : List Char) :
    pySlice (fenceWrap d) ((3 : Nat) : Int) ((d.length + 5 : Nat) : Int)
      = '\n' :: (d ++ ['\n']) := by
  rw [show ((d.length + 5 : Nat)) = 3 + (d.length + 2) by omega]
  rw [pySlice_nat (fenceWrap d) 3 (d.length + 2)
    (by simp [fenceWrap, fence3_eq]; omega)]
  rw [show (fenceWrap d).drop 3 = '\n' :: (d ++ '\n' :: fence3) from rfl]
  exact take_nlwrap d

/-- On an untagged fence around a serialized object, the recovery operation
returns the object (provided the body contains no fence marker). -/
theorem parse_fenceWrap (kvs : JsonKVs)
    (hd : findAux (dumpV (Json.obj kvs)) fence3 = none) :
    parse_json_response (fenceWrap (dumpV (Json.obj kvs))) = Except.ok (Json.obj kvs) := by
  unfold parse_json_response
  rw [fenceWrap_loads]
  rw [if_neg (by rw [pyFind_fenceWrap_tag7 _ hd]; decide)]
  rw [if_pos (by rw [pyFind_fenceWrap_fence3])]
  unfold fenceExtract
  rw [pyFind_fenceWrap_fence3]
  rw [show ((0 : Int).toNat + 3 : Nat) = (3 : Nat) from rfl]
  rw [pyFind_fenceWrap_fence3_from3 _ hd, slice_fenceWrap, strip_obj_wrap]
  unfold loadsE
  rw [loads_dumps]


theorem findAux_single_head (c0 : Char) (l : List Char) :
    findAux (c0 :: l) [c0] = some 0 := by
  have hp : List.isPrefixOf [c0] (c0 :: l) = true := by
    simp [List.isPrefixOf]
  simp only [findAux, if_pos hp]

theorem findAux_prose_none (pre mid post : List Char) (p' : List Char)
    (hpre : ∀ x ∈ pre, x ≠ btick)
    (hpost : ∀ x ∈ post, x ≠ btick)
    (hmid : findAux mid fence3 = none) :
    findAux (pre ++ (mid ++ post)) (btick :: btick :: btick :: p') = none := by
  rw [findAux_append_charFree pre _ btick _ hpre,
    findAux_append_fence mid post p' (head_neq_of_all post btick hpost) hmid,
    findAux_charFree_none post btick _ hpost]
  rfl

theorem pyFind_prose_lbrace (pre d2 post : List Char)
    (hpre : ∀ x ∈ pre, x ≠ lbrace) :
    pyFind (pre ++ (lbrace :: d2 ++ post)) [lbrace] 0 = ((pre.length : Nat) : Int) := by
  unfold pyFind
  rw [List.drop_zero, findAux_append_charFree pre _ lbrace [] hpre,
    List.cons_append, findAux_single_head]
  simp

theorem pyRFind_concat (a post : List Char) (c0 : Char)
    (hpost : ∀ x ∈ post, x ≠ c0) :
    pyRFind ((a ++ [c0]) ++ post) [c0] = ((a.length : Nat) : Int) := by
  unfold pyRFind
  rw [rfindAux_append_charFree _ post c0 hpost, rfindAux_concat_self]

/-- A serialized object embedded in brace-free, fence-free prose is
recovered by the brace-to-brace fallback. -/
theorem parse_prose (kvs : JsonKVs) (pre post : List Char)
    (hpre : ∀ x ∈ pre, x ≠ btick ∧ x ≠ lbrace ∧ x ≠ rbrace)
    (hpost : ∀ x ∈ post, x ≠ btick ∧ x ≠ lbrace ∧ x ≠ rbrace)
    (hd : findAux (dumpV (Json.obj kvs)) fence3 = none)
    (hload : json_loads (pre ++ (dumpV (Json.obj kvs) ++ post)) = none) :
    parse_json_response (pre ++ (dumpV (Json.obj kvs) ++ post))
      = Except.ok (Json.obj kvs) := by
  have ht : pyFind (pre ++ (dumpV (Json.obj kvs) ++ post)) tag7 0 = -1 := by
    unfold pyFind
    rw [List.drop_zero, tag7_eq, findAux_prose_none pre _ post _
      (fun x hx => (hpre x hx).1) (fun x hx => (hpost x hx).1) hd]
  have hf : pyFind (pre ++ (dumpV (Json.obj kvs) ++ post)) fence3 0 = -1 := by
    unfold pyFind
    rw [List.drop_zero, fence3_eq, findAux_prose_none pre _ post _
      (fun x hx => (hpre x hx).1) (fun x hx => (hpost x hx).1) hd]
  have hs : pyFind (pre ++ (dumpV (Json.obj kvs) ++ post)) [lbrace] 0
      = ((pre.length : Nat) : Int) := by
    rw [show dumpV (Json.obj kvs) ++ post
        = lbrace :: (dumpMembers kvs ++ [rbrace]) ++ post from rfl]
    exact pyFind_prose_lbrace pre _ post (fun x hx => (hpre x hx).2.1)
  have hr : pyRFind (pre ++ (dumpV (Json.obj kvs) ++ post)) [rbrace]
      = (((pre ++ (lbrace :: dumpMembers kvs)).length : Nat) : Int) := by
    rw [show pre ++ (dumpV (Json.obj kvs) ++ post)
        = ((pre ++ (lbrace :: dumpMembers kvs)) ++ [rbrace]) ++ post by
      rw [show dumpV (Json.obj kvs) = lbrace :: (dumpMembers kvs ++ [rbrace]) from rfl]
      simp]
    exact pyRFind_concat _ post rbrace (fun x hx => (hpost x hx).2.2)
  have hlen : (pre ++ (lbrace :: dumpMembers kvs)).length
      = pre.length + (dumpMembers kvs).length + 1 := by
    simp
    omega
  unfold parse_json_response
  rw [hload]
  rw [if_neg (by rw [ht]; decide)]
  rw [if_neg (by rw [hf]; decide)]
  unfold braceSpan
  rw [hs, hr, hlen]
  rw [if_pos (by
    constructor
    · omega
    · push_cast
      omega)]
  have hcast : ((pre.length + (dumpMembers kvs).length + 1 : Nat) : Int) + 1
      = ((pre.length + ((dumpMembers kvs).length + 2) : Nat) : Int) := by
    push_cast
    omega
  rw [hcast]
  rw [pySlice_nat _ pre.length ((dumpMembers kvs).length + 2) (by
    simp [dumpV])]
  rw [List.drop_left pre _]
  rw [show (dumpMembers kvs).length + 2 = (dumpV (Json.obj kvs)).length by
    simp [dumpV]]
  rw [List.take_left]
  simp [loadsE, loads_dumps]


/-- A reply with no left brace and no backtick that is not direct JSON
raises the parse failure carrying the reply. -/
theorem parse_nobrace (t : List Char)
    (h : ∀ x ∈ t, x ≠ lbrace ∧ x ≠ btick) (hload : json_loads t = none) :
    parse_json_response t = Except.error t := by
  have ht : pyFind t tag7 0 = -1 := by
    unfold pyFind
    rw [List.drop_zero, tag7_eq,
      findAux_charFree_none t btick _ (fun x hx => (h x hx).2)]
  have hf : pyFind t fence3 0 = -1 := by
    unfold pyFind
    rw [List.drop_zero, fence3_eq,
      findAux_charFree_none t btick _ (fun x hx => (h x hx).2)]
  have hb : pyFind t [lbrace] 0 = -1 := by
    unfold pyFind
    rw [List.drop_zero, findAux_charFree_none t lbrace [] (fun x hx => (h x hx).1)]
  unfold parse_json_response
  rw [hload, if_neg (by rw [ht]; decide), if_neg (by rw [hf]; decide)]
  unfold braceSpan
  rw [hb, if_neg (fun hc => hc.1 rfl)]

/-! ## Claim C1 -/

/-- Claim C1 is false of the code: a reply whose tagged fence holds
unparsable text but which contains a brace-delimited JSON object afterwards
is rejected, although strategy 4 succeeds on it. -/
theorem C1_counterexample : ¬ triesInOrderClaim := by
  intro h
  have h0 := h (String.data "```json\nnope\n```\n\x7b\"a\": 1\x7d")
  rw [show parse_json_response (String.data "```json\nnope\n```\n\x7b\"a\": 1\x7d")
      = Except.error (String.data "nope") from rfl] at h0
  rw [show claimedCascade (String.data "```json\nnope\n```\n\x7b\"a\": 1\x7d")
      = Except.ok (Json.obj (JsonKVs.cons "a" (Json.num 1) JsonKVs.nil)) from rfl] at h0
  exact Except.noConfusion h0

/-- Amended claim C1: only strategy 1's parse failure falls through; the
operation then commits to the single strategy selected by the first matching
guard (tagged fence, untagged fence, brace span), and that strategy's parse
failure is final. -/
theorem C1_amended_cascade : ∀ t : List Char,
    (∀ v, json_loads t = some v → parse_json_response t = Except.ok v)
    ∧ (json_loads t = none → 0 ≤ pyFind t tag7 0 →
        parse_json_response t = loadsE (tagExtract t))
    ∧ (json_loads t = none → pyFind t tag7 0 < 0 → 0 ≤ pyFind t fence3 0 →
        parse_json_response t = loadsE (fenceExtract t))
    ∧ (json_loads t = none → pyFind t tag7 0 < 0 → pyFind t fence3 0 < 0 →
        parse_json_response t =
          (match braceSpan t with
           | some sub => loadsE sub
           | none => Except.error t)) := by
  intro t
  refine ⟨?_, ?_, ?_, ?_⟩
  · intro v hv
    unfold parse_json_response
    rw [hv]
  · intro h0 h1
    unfold parse_json_response
    rw [h0, if_pos h1]
  · intro h0 h1 h2
    unfold parse_json_response
    rw [h0, if_neg (by omega), if_pos h2]
  · intro h0 h1 h2
    unfold parse_json_response
    rw [h0, if_neg (by omega), if_neg (by omega)]

/-- Witness for the amended C1 at a concrete tagged-fence reply. -/
theorem C1_amended_witness :
    parse_json_response (String.data "```json\n\x7b\x7d\n```")
      = loadsE (tagExtract (String.data "```json\n\x7b\x7d\n```")) :=
  (C1_amended_cascade (String.data "```json\n\x7b\x7d\n```")).2.1 (by rfl) (by decide)

/-! ## Claim C2 -/

/-- Claim C2 is false of the code: the reply `42`, which contains no left
brace, parses directly as JSON and is returned, not raised as a failure. -/
theorem C2_counterexample : ¬ C2Statement := by
  intro h
  have h2 := h.2 (String.data "42") (by decide)
  rw [show parse_json_response (String.data "42")
      = Except.ok (Json.num 42) from rfl] at h2
  exact Except.noConfusion h2

/-- Amended claim C2: for a JSON object whose serialization contains no
fence marker, the four reply shapes (raw, tagged fence, untagged fence,
embedded in backtick-free and brace-free prose such that the whole reply
is not itself valid JSON) all recover the object; and a reply with no left brace and no
backtick that is not valid JSON raises the failure carrying the reply. -/
theorem C2_amended_recovery (kvs : JsonKVs)
    (hd : findAux (dumpV (Json.obj kvs)) fence3 = none) :
    parse_json_response (dumpV (Json.obj kvs)) = Except.ok (Json.obj kvs)
    ∧ parse_json_response (tagWrap (dumpV (Json.obj kvs))) = Except.ok (Json.obj kvs)
    ∧ parse_json_response (fenceWrap (dumpV (Json.obj kvs))) = Except.ok (Json.obj kvs)
    ∧ (∀ pre post : List Char,
        (∀ x ∈ pre, x ≠ btick ∧ x ≠ lbrace ∧ x ≠ rbrace) →
        (∀ x ∈ post, x ≠ btick ∧ x ≠ lbrace ∧ x ≠ rbrace) →
        json_loads (pre ++ (dumpV (Json.obj kvs) ++ post)) = none →
        parse_json_response (pre ++ (dumpV (Json.obj kvs) ++ post))
          = Except.ok (Json.obj kvs))
    ∧ (∀ t : List Char, (∀ x ∈ t, x ≠ lbrace ∧ x ≠ btick) → json_loads t = none →
        parse_json_response t = Except.error t) := by
  refine ⟨?_, parse_tagWrap kvs hd, parse_fenceWrap kvs hd,
    fun pre post hpre hpost hload => parse_prose kvs pre post hpre hpost hd hload,
    fun t h hload => parse_nobrace t h hload⟩
  unfold parse_json_response
  rw [loads_dumps]

/-- Witness for the amended C2 at the object `(one key "a" mapped to 1)`,
with concrete prose and a concrete brace-free reply. -/
theorem C2_amended_recovery_witness :
    parse_json_response (dumpV (Json.obj (JsonKVs.cons "a" (Json.num 1) JsonKVs.nil)))
      = Except.ok (Json.obj (JsonKVs.cons "a" (Json.num 1) JsonKVs.nil))
    ∧ parse_json_response (tagWrap (dumpV (Json.obj (JsonKVs.cons "a" (Json.num 1) JsonKVs.nil))))
      = Except.ok (Json.obj (JsonKVs.cons "a" (Json.num 1) JsonKVs.nil))
    ∧ parse_json_response (fenceWrap (dumpV (Json.obj (JsonKVs.cons "a" (Json.num 1) JsonKVs.nil))))
      = Except.ok (Json.obj (JsonKVs.cons "a" (Json.num 1) JsonKVs.nil))
    ∧ parse_json_response ((String.data "Sure: ")
        ++ (dumpV (Json.obj (JsonKVs.cons "a" (Json.num 1) JsonKVs.nil))
          ++ (String.data " Done.")))
      = Except.ok (Json.obj (JsonKVs.cons "a" (Json.num 1) JsonKVs.nil))
    ∧ parse_json_response (String.data "no reply here")
      = Except.error (String.data "no reply here") := by
  have h := C2_amended_recovery (JsonKVs.cons "a" (Json.num 1) JsonKVs.nil) (by decide)
  exact ⟨h.1, h.2.1, h.2.2.1,
    h.2.2.2.1 (String.data "Sure: ") (String.data " Done.") (by decide) (by decide) (by rfl),
    h.2.2.2.2 (String.data "no reply here") (by decide) (by rfl)⟩


/-! ## Claim C3: structural validation -/

/-- Claim C3: validation succeeds exactly when all six required keys are
present; the failure message names exactly the absent required keys, in
order; and the outcome depends only on which keys are present, never on
the values. -/
theorem C3_validate_structure :
    (∀ a : JsonKVs,
      ((validate_analysis_structure a = Except.ok true) ↔
        ∀ f ∈ requiredFields, hasKey a f = true)
      ∧ (∀ f, f ∈ missingFields a ↔ f ∈ requiredFields ∧ hasKey a f = false)
      ∧ (missingFields a ≠ [] →
          validate_analysis_structure a = Except.error
            ("Analysis missing required fields: " ++
              String.intercalate ", " (missingFields a)))
      ∧ (missingFields a = [] → validate_analysis_structure a = Except.ok true))
    ∧ (∀ a b : JsonKVs, (∀ f, hasKey a f = hasKey b f) →
        validate_analysis_structure a = validate_analysis_structure b) := by
  constructor
  · intro a
    refine ⟨?_, ?_, ?_, ?_⟩
    · unfold validate_analysis_structure
      by_cases hm : missingFields a = []
      · rw [if_pos hm]
        constructor
        · intro _ f hf
          unfold missingFields at hm
          rw [List.filter_eq_nil_iff] at hm
          have := hm f hf
          simpa using this
        · intro _
          rfl
      · rw [if_neg hm]
        constructor
        · intro hfalse
          exact Except.noConfusion hfalse
        · intro hall
          exfalso
          apply hm
          unfold missingFields
          rw [List.filter_eq_nil_iff]
          intro f hf
          simp [hall f hf]
    · intro f
      unfold missingFields
      rw [List.mem_filter]
      simp
    · intro hm
      unfold validate_analysis_structure
      rw [if_neg hm]
    · intro hm
      unfold validate_analysis_structure
      rw [if_pos hm]
  · intro a b hk
    have hmf : missingFields a = missingFields b := by
      unfold missingFields
      apply List.filter_congr
      intro f _
      rw [hk f]
    unfold validate_analysis_structure
    rw [hmf]

/-- Witness for C3: an object carrying all six keys (with empty-sequence
values) passes, and an object with only two keys fails naming exactly the
four absent keys. -/
theorem C3_validate_structure_witness :
    validate_analysis_structure
      (JsonKVs.cons "client_problems" (Json.arr JsonList.nil)
        (JsonKVs.cons "requirements" (Json.arr JsonList.nil)
          (JsonKVs.cons "gotchas" (Json.arr JsonList.nil)
            (JsonKVs.cons "timeline" (Json.arr JsonList.nil)
              (JsonKVs.cons "next_steps" (Json.arr JsonList.nil)
                (JsonKVs.cons "alignment_questions" (Json.arr JsonList.nil)
                  JsonKVs.nil)))))) = Except.ok true
    ∧ validate_analysis_structure
        (JsonKVs.cons "client_problems" (Json.arr JsonList.nil)
          (JsonKVs.cons "timeline" (Json.arr JsonList.nil) JsonKVs.nil))
      = Except.error ("Analysis missing required fields: " ++
          String.intercalate ", "
            ["requirements", "gotchas", "next_steps", "alignment_questions"]) := by
  constructor
  · exact (C3_validate_structure.1 _).2.2.2 (by decide)
  · have h := (C3_validate_structure.1
      (JsonKVs.cons "client_problems" (Json.arr JsonList.nil)
        (JsonKVs.cons "timeline" (Json.arr JsonList.nil) JsonKVs.nil))).2.2.1 (by decide)
    rw [h]
    rfl

/-! ## Claim C4: the timeout handler is unreachable -/

/-- Claim C4 evaluated on the code: because `APITimeoutError` is a subclass
of `APIError` and the `except APIError` clause comes first, a timeout is
wrapped in the generic transport message, never the timeout-specific one. -/
theorem C4_timeout_shadowed :
    (∀ m, analyzeRfpHandler (ApiExc.apiTimeout m) = "Claude API error: " ++ m)
    ∧ analyzeRfpHandler (ApiExc.apiTimeout "Request timed out.")
        = "Claude API error: Request timed out."
    ∧ analyzeRfpHandler (ApiExc.apiTimeout "Request timed out.")
        ≠ "Request timed out. Please try again." := by
  refine ⟨fun m => rfl, rfl, by decide⟩

/-! ## Claim C5: the upload validator -/

/-- Claim C5: a parseable PDF of at most 10 MB with at least one page
passes; an oversize, zero-page, or unreadable stream fails with a
non-empty reason. -/
theorem C5_upload_validator (f : UploadedFile) :
    (∀ n, f.sizeBytes ≤ 10 * 1024 * 1024 → f.parse = PdfParse.pages n → 1 ≤ n →
      (validate_file_upload f).1 = (true, ""))
    ∧ (10 * 1024 * 1024 < f.sizeBytes →
        (validate_file_upload f).1.1 = false ∧ (validate_file_upload f).1.2 ≠ "")
    ∧ (f.parse = PdfParse.pages 0 →
        (validate_file_upload f).1.1 = false ∧ (validate_file_upload f).1.2 ≠ "")
    ∧ (f.parse = PdfParse.pdfReadError →
        (validate_file_upload f).1.1 = false ∧ (validate_file_upload f).1.2 ≠ "")
    ∧ (∀ m, f.parse = PdfParse.otherExc m →
        (validate_file_upload f).1.1 = false ∧ (validate_file_upload f).1.2 ≠ "") := by
  refine ⟨?_, ?_, ?_, ?_, ?_⟩
  · intro n hsz hp hn
    simp [validate_file_upload, validate_pdf, hp, Nat.not_lt.mpr hsz,
      show n ≠ 0 by omega]
  · intro hsz
    have hv : (validate_file_upload f).1 = (false, "File too large. Maximum size is 10MB.") := by
      simp [validate_file_upload, hsz]
    rw [hv]
    exact ⟨rfl, by decide⟩
  · intro hp
    by_cases hsz : 10 * 1024 * 1024 < f.sizeBytes
    · have hv : (validate_file_upload f).1 = (false, "File too large. Maximum size is 10MB.") := by
        simp [validate_file_upload, hsz]
      rw [hv]
      exact ⟨rfl, by decide⟩
    · have hv : (validate_file_upload f).1 = (false, "PDF appears to be empty (0 pages)") := by
        simp [validate_file_upload, validate_pdf, hsz, hp]
      rw [hv]
      exact ⟨rfl, by decide⟩
  · intro hp
    by_cases hsz : 10 * 1024 * 1024 < f.sizeBytes
    · have hv : (validate_file_upload f).1 = (false, "File too large. Maximum size is 10MB.") := by
        simp [validate_file_upload, hsz]
      rw [hv]
      exact ⟨rfl, by decide⟩
    · have hv : (validate_file_upload f).1 = (false, "File is not a valid PDF or is corrupted") := by
        simp [validate_file_upload, validate_pdf, hsz, hp]
      rw [hv]
      exact ⟨rfl, by decide⟩
  · intro m hp
    by_cases hsz : 10 * 1024 * 1024 < f.sizeBytes
    · have hv : (validate_file_upload f).1 = (false, "File too large. Maximum size is 10MB.") := by
        simp [validate_file_upload, hsz]
      rw [hv]
      exact ⟨rfl, by decide⟩
    · have hv : (validate_file_upload f).1 = (false, "Error reading PDF: " ++ m) := by
        simp [validate_file_upload, validate_pdf, hsz, hp]
      rw [hv]
      refine ⟨rfl, ?_⟩
      intro he
      have hle := congrArg String.length he
      rw [String.length_append] at hle
      rw [show ("Error reading PDF: ").length = 19 from rfl] at hle
      rw [show ("" : String).length = 0 from rfl] at hle
      omega

/-- Witness for C5 at concrete uploads: a small three-page PDF passes, an
unreadable stream fails with its message. -/
theorem C5_upload_validator_witness :
    (validate_file_upload ⟨PdfParse.pages 3, 1000, 7, 0⟩).1 = (true, "")
    ∧ (validate_file_upload ⟨PdfParse.pdfReadError, 1000, 7, 0⟩).1.1 = false
    ∧ (validate_file_upload ⟨PdfParse.pdfReadError, 1000, 7, 0⟩).1.2 ≠ "" := by
  refine ⟨?_, ?_, ?_⟩
  · exact (C5_upload_validator _).1 3 (by decide) rfl (by decide)
  · exact ((C5_upload_validator _).2.2.2.1 rfl).1
  · exact ((C5_upload_validator _).2.2.2.1 rfl).2


/-! ## Claim C6: stream position after validation -/

/-- Claim C6 is false of the code: when the reader raises (an unreadable
stream), `validate_pdf` returns without `seek(0)`, leaving the read
position wherever parsing stopped. -/
theorem C6_counterexample : ¬ C6Statement := by
  intro h
  have h5 := (h ⟨PdfParse.pdfReadError, 5, 5, 0⟩ rfl).1
  rw [show (validate_pdf ⟨PdfParse.pdfReadError, 5, 5, 0⟩).2.pos = 5 from rfl] at h5
  exact absurd h5 (by decide)

/-- Amended claim C6: on streams that parse as a PDF (pass, and the
zero-page failure) the position is rewound to the start; on reader
exceptions the position is left where the reader stopped; the stream's
content fields are never changed. -/
theorem C6_amended_rewind (f : UploadedFile) :
    (∀ n, f.parse = PdfParse.pages n → (validate_pdf f).2.pos = 0)
    ∧ (f.parse = PdfParse.pdfReadError → (validate_pdf f).2.pos = f.readerEndPos)
    ∧ (∀ m, f.parse = PdfParse.otherExc m → (validate_pdf f).2.pos = f.readerEndPos)
    ∧ (validate_pdf f).2.parse = f.parse
    ∧ (validate_pdf f).2.sizeBytes = f.sizeBytes
    ∧ (validate_pdf f).2.readerEndPos = f.readerEndPos := by
  refine ⟨?_, ?_, ?_, ?_, ?_, ?_⟩
  · intro n hp
    by_cases hn : n = 0 <;> simp [validate_pdf, hp, hn]
  · intro hp
    simp [validate_pdf, hp]
  · intro m hp
    simp [validate_pdf, hp]
  · cases hp : f.parse with
    | pages n => by_cases hn : n = 0 <;> simp [validate_pdf, hp, hn]
    | pdfReadError => simp [validate_pdf, hp]
    | otherExc m => simp [validate_pdf, hp]
  · cases hp : f.parse with
    | pages n => by_cases hn : n = 0 <;> simp [validate_pdf, hp, hn]
    | pdfReadError => simp [validate_pdf, hp]
    | otherExc m => simp [validate_pdf, hp]
  · cases hp : f.parse with
    | pages n => by_cases hn : n = 0 <;> simp [validate_pdf, hp, hn]
    | pdfReadError => simp [validate_pdf, hp]
    | otherExc m => simp [validate_pdf, hp]

/-- Witness for the amended C6 at concrete streams. -/
theorem C6_amended_rewind_witness :
    (validate_pdf ⟨PdfParse.pages 3, 9, 9, 0⟩).2.pos = 0
    ∧ (validate_pdf ⟨PdfParse.pdfReadError, 5, 5, 0⟩).2.pos = 5
    ∧ (validate_pdf ⟨PdfParse.pages 3, 9, 9, 0⟩).2.parse = PdfParse.pages 3 := by
  refine ⟨?_, ?_, ?_⟩
  · exact (C6_amended_rewind _).1 3 rfl
  · exact (C6_amended_rewind _).2.1 rfl
  · exact (C6_amended_rewind _).2.2.2.1

/-! ## Claim C7: the timeline table -/

/-- Claim C7: for a non-empty timeline, the rendered section contains
exactly one table, whose rows are the (Event, Date) header followed by one
row per entry in order, with `"Unknown Event"` and `"TBD"` substituted for
absent fields; the record with only an event renders as
`("Kickoff", "TBD")` and rendering is total. -/
theorem C7_timeline_rows :
    (∀ tl : List TRec, tl ≠ [] →
      tablesOf (create_timeline_section tl)
        = [["Event", "Date"] :: tl.map timelineRow])
    ∧ (∀ r : TRec, timelineRow r
        = [recGet r "event" "Unknown Event", recGet r "date" "TBD"])
    ∧ timelineRow [("event", "Kickoff")] = ["Kickoff", "TBD"]
    ∧ tablesOf (create_timeline_section [[("event", "Kickoff")]])
        = [[["Event", "Date"], ["Kickoff", "TBD"]]] := by
  refine ⟨?_, fun r => rfl, rfl, rfl⟩
  intro tl htl
  simp [create_timeline_section, tablesOf, htl]

/-- Witness for C7 at a concrete one-entry timeline lacking the date. -/
theorem C7_timeline_rows_witness :
    tablesOf (create_timeline_section [[("date", "2025-03-01")]])
      = [[["Event", "Date"], ["Unknown Event", "2025-03-01"]]] := by
  have h := C7_timeline_rows.1 [[("date", "2025-03-01")]] (by decide)
  rw [h]
  rfl


/-! ## Claims C8, C9: the workbook renderer -/

theorem cellAt_append (ws1 ws2 : Sheet) (a : CellAddr) :
    cellAt (ws1 ++ ws2) a =
      (match cellAt ws2 a with
       | some v => some v
       | none => cellAt ws1 a) := by
  induction ws1 with
  | nil =>
    cases h : cellAt ws2 a <;> simp [h, cellAt]
  | cons p rest ih =>
    simp only [List.cons_append, cellAt, List.append_eq, ih]
    cases h : cellAt ws2 a <;> rfl

theorem stepRows_lt (steps : List String) :
    ∀ (idx row r : Nat) (c : Char), r < row →
      cellAt (stepRows steps idx row) (c, r) = none := by
  induction steps with
  | nil => intro idx row r c _; rfl
  | cons s rest ih =>
    intro idx row r c hr
    have htail := ih (idx + 1) (row + 1) r c (by omega)
    simp [stepRows, cellAt, htail, show ¬(row = r) by omega]

theorem stepRows_ge (steps : List String) :
    ∀ (idx row r : Nat) (c : Char), row + steps.length ≤ r →
      cellAt (stepRows steps idx row) (c, r) = none := by
  induction steps with
  | nil => intro idx row r c _; rfl
  | cons s rest ih =>
    intro idx row r c hr
    simp only [List.length_cons] at hr
    have htail := ih (idx + 1) (row + 1) r c (by omega)
    simp [stepRows, cellAt, htail, show ¬(row = r) by omega]

theorem stepRows_at (steps : List String) :
    ∀ (idx row i : Nat), i < steps.length →
      cellAt (stepRows steps idx row) ('A', row + i) = some (CellVal.i (idx + i))
      ∧ cellAt (stepRows steps idx row) ('B', row + i) = some (CellVal.s (steps.getD i ""))
      ∧ cellAt (stepRows steps idx row) ('C', row + i) = some (CellVal.s "Pending") := by
  induction steps with
  | nil => intro idx row i hi; simp at hi
  | cons s rest ih =>
    intro idx row i hi
    cases i with
    | zero =>
      have hnone : ∀ c, cellAt (stepRows rest (idx + 1) (row + 1)) (c, row) = none :=
        fun c => stepRows_lt rest (idx + 1) (row + 1) row c (by omega)
      refine ⟨?_, ?_, ?_⟩ <;> simp [stepRows, cellAt, hnone]
    | succ j =>
      have h3 := ih (idx + 1) (row + 1) j (by simpa using hi)
      rw [show row + (j + 1) = (row + 1) + j by omega,
        show idx + (j + 1) = (idx + 1) + j by omega,
        show (s :: rest).getD (j + 1) "" = rest.getD j "" from rfl]
      refine ⟨?_, ?_, ?_⟩ <;>
        simp [stepRows, cellAt, h3.1, h3.2.1, h3.2.2,
          show ¬(row = row + 1 + j) by omega]

theorem questionRows_lt (qs : List String) :
    ∀ (idx row r : Nat) (c : Char), r < row →
      cellAt (questionRows qs idx row) (c, r) = none := by
  induction qs with
  | nil => intro idx row r c _; rfl
  | cons s rest ih =>
    intro idx row r c hr
    have htail := ih (idx + 1) (row + 1) r c (by omega)
    simp [questionRows, cellAt, htail, show ¬(row = r) by omega]

theorem questionRows_ge (qs : List String) :
    ∀ (idx row r : Nat) (c : Char), row + qs.length ≤ r →
      cellAt (questionRows qs idx row) (c, r) = none := by
  induction qs with
  | nil => intro idx row r c _; rfl
  | cons s rest ih =>
    intro idx row r c hr
    simp only [List.length_cons] at hr
    have htail := ih (idx + 1) (row + 1) r c (by omega)
    simp [questionRows, cellAt, htail, show ¬(row = r) by omega]

theorem questionRows_at (qs : List String) :
    ∀ (idx row i : Nat), i < qs.length →
      cellAt (questionRows qs idx row) ('A', row + i) = some (CellVal.i (idx + i))
      ∧ cellAt (questionRows qs idx row) ('B', row + i) = some (CellVal.s (qs.getD i ""))
      ∧ cellAt (questionRows qs idx row) ('C', row + i) = some (CellVal.s "") := by
  induction qs with
  | nil => intro idx row i hi; simp at hi
  | cons s rest ih =>
    intro idx row i hi
    cases i with
    | zero =>
      have hnone : ∀ c, cellAt (questionRows rest (idx + 1) (row + 1)) (c, row) = none :=
        fun c => questionRows_lt rest (idx + 1) (row + 1) row c (by omega)
      refine ⟨?_, ?_, ?_⟩ <;> simp [questionRows, cellAt, hnone]
    | succ j =>
      have h3 := ih (idx + 1) (row + 1) j (by simpa using hi)
      rw [show row + (j + 1) = (row + 1) + j by omega,
        show idx + (j + 1) = (idx + 1) + j by omega,
        show (s :: rest).getD (j + 1) "" = rest.getD j "" from rfl]
      refine ⟨?_, ?_, ?_⟩ <;>
        simp [questionRows, cellAt, h3.1, h3.2.1, h3.2.2,
          show ¬(row = row + 1 + j) by omega]


theorem nextSheet_ge (steps : List String) (fname now : String) (r : Nat) (c : Char)
    (hr : 6 + steps.length ≤ r) :
    cellAt (create_next_steps_sheet steps fname now) (c, r) = none := by
  unfold create_next_steps_sheet
  rw [cellAt_append, stepRows_ge steps 1 6 r c (by omega)]
  simp [cellAt, show ¬(1 = r) by omega, show ¬(2 = r) by omega,
    show ¬(3 = r) by omega, show ¬(5 = r) by omega]

theorem questionSheet_ge (qs : List String) (fname now : String) (r : Nat) (c : Char)
    (hr : 6 + qs.length ≤ r) :
    cellAt (create_alignment_questions_sheet qs fname now) (c, r) = none := by
  unfold create_alignment_questions_sheet
  rw [cellAt_append, questionRows_ge qs 1 6 r c (by omega)]
  simp [cellAt, show ¬(1 = r) by omega, show ¬(2 = r) by omega,
    show ¬(3 = r) by omega, show ¬(5 = r) by omega]

theorem nextSheet_at (steps : List String) (fname now : String) (i : Nat)
    (hi : i < steps.length) :
    cellAt (create_next_steps_sheet steps fname now) ('A', 6 + i) = some (CellVal.i (1 + i))
    ∧ cellAt (create_next_steps_sheet steps fname now) ('B', 6 + i)
        = some (CellVal.s (steps.getD i ""))
    ∧ cellAt (create_next_steps_sheet steps fname now) ('C', 6 + i)
        = some (CellVal.s "Pending") := by
  have h3 := stepRows_at steps 1 6 i hi
  unfold create_next_steps_sheet
  refine ⟨?_, ?_, ?_⟩ <;> rw [cellAt_append]
  · rw [h3.1]
  · rw [h3.2.1]
  · rw [h3.2.2]

theorem questionSheet_at (qs : List String) (fname now : String) (i : Nat)
    (hi : i < qs.length) :
    cellAt (create_alignment_questions_sheet qs fname now) ('A', 6 + i)
        = some (CellVal.i (1 + i))
    ∧ cellAt (create_alignment_questions_sheet qs fname now) ('B', 6 + i)
        = some (CellVal.s (qs.getD i ""))
    ∧ cellAt (create_alignment_questions_sheet qs fname now) ('C', 6 + i)
        = some (CellVal.s "") := by
  have h3 := questionRows_at qs 1 6 i hi
  unfold create_alignment_questions_sheet
  refine ⟨?_, ?_, ?_⟩ <;> rw [cellAt_append]
  · rw [h3.1]
  · rw [h3.2.1]
  · rw [h3.2.2]

/-- Claim C8: the Next Steps tab's data rows are exactly
`(i, text of entry i, "Pending")` with a 1-based index, in order, and the
Alignment Questions tab's data rows are exactly `(i, question i, "")`;
no data row exists beyond the lists, and the two tabs are produced in the
workbook under their names. -/
theorem C8_workbook_rows (steps questions : List String) (fname now : String) :
    (∀ i, i < steps.length →
      cellAt (create_next_steps_sheet steps fname now) ('A', 6 + i)
          = some (CellVal.i (1 + i))
      ∧ cellAt (create_next_steps_sheet steps fname now) ('B', 6 + i)
          = some (CellVal.s (steps.getD i ""))
      ∧ cellAt (create_next_steps_sheet steps fname now) ('C', 6 + i)
          = some (CellVal.s "Pending"))
    ∧ (∀ r c, 6 + steps.length ≤ r →
        cellAt (create_next_steps_sheet steps fname now) (c, r) = none)
    ∧ (∀ j, j < questions.length →
        cellAt (create_alignment_questions_sheet questions fname now) ('A', 6 + j)
            = some (CellVal.i (1 + j))
        ∧ cellAt (create_alignment_questions_sheet questions fname now) ('B', 6 + j)
            = some (CellVal.s (questions.getD j ""))
        ∧ cellAt (create_alignment_questions_sheet questions fname now) ('C', 6 + j)
            = some (CellVal.s ""))
    ∧ (∀ r c, 6 + questions.length ≤ r →
        cellAt (create_alignment_questions_sheet questions fname now) (c, r) = none)
    ∧ generate_workbook steps questions fname now
        = [("Next Steps", create_next_steps_sheet steps fname now),
           ("Alignment Questions",
            create_alignment_questions_sheet questions fname now)] :=
  ⟨fun i hi => nextSheet_at steps fname now i hi,
   fun r c hr => nextSheet_ge steps fname now r c hr,
   fun j hj => questionSheet_at questions fname now j hj,
   fun r c hr => questionSheet_ge questions fname now r c hr,
   rfl⟩

/-- Witness for C8 at the spec's end-to-end example lists. -/
theorem C8_workbook_rows_witness :
    cellAt (create_next_steps_sheet ["Schedule kickoff call"] "r.pdf" "t") ('A', 6)
        = some (CellVal.i 1)
    ∧ cellAt (create_next_steps_sheet ["Schedule kickoff call"] "r.pdf" "t") ('B', 6)
        = some (CellVal.s "Schedule kickoff call")
    ∧ cellAt (create_next_steps_sheet ["Schedule kickoff call"] "r.pdf" "t") ('C', 6)
        = some (CellVal.s "Pending")
    ∧ cellAt (create_alignment_questions_sheet ["What is our differentiator?"] "r.pdf" "t")
        ('B', 6) = some (CellVal.s "What is our differentiator?")
    ∧ cellAt (create_alignment_questions_sheet ["What is our differentiator?"] "r.pdf" "t")
        ('C', 6) = some (CellVal.s "")
    ∧ cellAt (create_next_steps_sheet ["Schedule kickoff call"] "r.pdf" "t") ('A', 7)
        = none := by
  have hn := (C8_workbook_rows ["Schedule kickoff call"] ["What is our differentiator?"]
    "r.pdf" "t")
  exact ⟨(hn.1 0 (by decide)).1, (hn.1 0 (by decide)).2.1, (hn.1 0 (by decide)).2.2,
    (hn.2.2.1 0 (by decide)).2.1, (hn.2.2.1 0 (by decide)).2.2,
    hn.2.1 7 'A' (by decide)⟩

/-- Claim C9: with empty inputs the workbook still carries both named tabs,
each with its header row and zero data rows. -/
theorem C9_empty_tabs (fname now : String) :
    (generate_workbook [] [] fname now).map Prod.fst
        = ["Next Steps", "Alignment Questions"]
    ∧ List.lookup "Next Steps" (generate_workbook [] [] fname now)
        = some (create_next_steps_sheet [] fname now)
    ∧ List.lookup "Alignment Questions" (generate_workbook [] [] fname now)
        = some (create_alignment_questions_sheet [] fname now)
    ∧ cellAt (create_next_steps_sheet [] fname now) ('A', 5) = some (CellVal.s "#")
    ∧ cellAt (create_next_steps_sheet [] fname now) ('B', 5)
        = some (CellVal.s "Action Item")
    ∧ cellAt (create_next_steps_sheet [] fname now) ('C', 5)
        = some (CellVal.s "Status")
    ∧ (∀ r c, 6 ≤ r → cellAt (create_next_steps_sheet [] fname now) (c, r) = none)
    ∧ cellAt (create_alignment_questions_sheet [] fname now) ('A', 5)
        = some (CellVal.s "#")
    ∧ cellAt (create_alignment_questions_sheet [] fname now) ('B', 5)
        = some (CellVal.s "Question")
    ∧ cellAt (create_alignment_questions_sheet [] fname now) ('C', 5)
        = some (CellVal.s "Answer / Notes")
    ∧ (∀ r c, 6 ≤ r →
        cellAt (create_alignment_questions_sheet [] fname now) (c, r) = none) := by
  refine ⟨rfl, rfl, rfl, rfl, rfl, rfl, ?_, rfl, rfl, rfl, ?_⟩
  · intro r c hr
    exact nextSheet_ge [] fname now r c (by simpa using hr)
  · intro r c hr
    exact questionSheet_ge [] fname now r c (by simpa using hr)

/-- Witness for C9 at a concrete row beyond the header. -/
theorem C9_empty_tabs_witness :
    cellAt (create_next_steps_sheet [] "r.pdf" "t") ('B', 6) = none
    ∧ cellAt (create_alignment_questions_sheet [] "r.pdf" "t") ('C', 9) = none :=
  ⟨(C9_empty_tabs "r.pdf" "t").2.2.2.2.2.2.1 6 'B' (by decide),
   (C9_empty_tabs "r.pdf" "t").2.2.2.2.2.2.2.2.2.2 9 'C' (by decide)⟩


/-! ## Claim C10: the report renderer is total over key absence -/

/-- Claim C10: the report renderer treats every absent key exactly as an
explicitly empty one (so a missing key is never an error), rendering the
section's no-items line in its place, and every section of the document is
still produced. -/
theorem C10_missing_keys_default (a : AnalysisDict) (fname now : String) :
    generate_analysis_pdf a fname now = generate_analysis_pdf (fillDefaults a) fname now
    ∧ (a.client_problems = none →
        Flowable.para "No items identified." "Normal" ∈ generate_analysis_pdf a fname now)
    ∧ (a.requirements = none →
        Flowable.para "No items identified." "Normal" ∈ generate_analysis_pdf a fname now)
    ∧ (a.gotchas = none →
        Flowable.para "No items identified." "Normal" ∈ generate_analysis_pdf a fname now)
    ∧ (a.timeline = none →
        Flowable.para "No timeline information available." "Normal"
          ∈ generate_analysis_pdf a fname now)
    ∧ Flowable.para "Client Problems & Challenges" "SectionHeader"
        ∈ generate_analysis_pdf a fname now
    ∧ Flowable.para "Specific Requirements" "SectionHeader"
        ∈ generate_analysis_pdf a fname now
    ∧ Flowable.para "Gotchas & Ambiguities" "SectionHeader"
        ∈ generate_analysis_pdf a fname now
    ∧ Flowable.para "Timeline & Key Dates" "SectionHeader"
        ∈ generate_analysis_pdf a fname now := by
  refine ⟨?_, ?_, ?_, ?_, ?_, ?_, ?_, ?_, ?_⟩
  · unfold generate_analysis_pdf fillDefaults
    simp
  · intro h
    simp [generate_analysis_pdf, create_bullet_section, h]
  · intro h
    simp [generate_analysis_pdf, create_bullet_section, h]
  · intro h
    simp [generate_analysis_pdf, create_bullet_section, h]
  · intro h
    simp [generate_analysis_pdf, create_timeline_section, h]
  · simp [generate_analysis_pdf, create_bullet_section]
  · simp [generate_analysis_pdf, create_bullet_section]
  · simp [generate_analysis_pdf, create_bullet_section]
  · simp [generate_analysis_pdf, create_timeline_section]

/-- Witness for C10 at the dictionary with all six keys absent. -/
theorem C10_missing_keys_default_witness :
    Flowable.para "No items identified." "Normal"
      ∈ generate_analysis_pdf ⟨none, none, none, none, none, none⟩ "r.pdf" "t"
    ∧ Flowable.para "No timeline information available." "Normal"
      ∈ generate_analysis_pdf ⟨none, none, none, none, none, none⟩ "r.pdf" "t"
    ∧ generate_analysis_pdf ⟨none, none, none, none, none, none⟩ "r.pdf" "t"
      = generate_analysis_pdf
          (fillDefaults ⟨none, none, none, none, none, none⟩) "r.pdf" "t" := by
  have h := C10_missing_keys_default ⟨none, none, none, none, none, none⟩ "r.pdf" "t"
  exact ⟨h.2.1 rfl, h.2.2.2.2.1 rfl, h.1⟩

end Rfp
